import Mathlib

/-!
# xssjson: the streaming HTML-escaper for serialized JSON

A shallow embedding of `escape.go` (package `xssjson`).

* Bytes are natural numbers (`'"'` is 34, `'\\'` is 92, ...); a `[]byte` is a `List Nat`.
* The downstream `io.Writer` is modelled by the log of the byte slices handed to it,
  one entry per call of `w.Writer.Write`, oldest first.  `Write` discards every result
  of a sink call, so the log is all that the sink contributes to the behaviour.
* The loop variable `last` of `Write` is threaded explicitly through the loop.
* An assignment `w.uchar[i] = c` is `List.set`.  The scratch buffer is made with length 6
  and `Write` never changes its length (`Write_uchar_length`), so every index is in range;
  theorems about an arbitrary encoder assume that length.
-/

namespace XssJSON

/-! ## Definitions embedded from the source -/

/-- The scanner modes, the `iota` constants `stateTop` .. `stateUnicode4`. -/
inductive State where
  | stateTop
  | stateQuote
  | stateBackslash
  | stateUnicode1
  | stateUnicode2
  | stateUnicode3
  | stateUnicode4
  deriving DecidableEq, Repr

open State

/-- The constant `escapedGT`, the bytes of `"&gt;"`. -/
def escapedGT : List Nat := [38, 103, 116, 59]

/-- The constant `escapedLT`, the bytes of `"&lt;"`. -/
def escapedLT : List Nat := [38, 108, 116, 59]

/-- The constant `escapedAmp`, the bytes of `"&amp;"`. -/
def escapedAmp : List Nat := [38, 97, 109, 112, 59]

/-- The constant `escapedSingleQuote`, the bytes of `"&#x27;"`. -/
def escapedSingleQuote : List Nat := [38, 35, 120, 50, 55, 59]

/-- The constant `escapedDoubleQuote`, the bytes of `"&quot;"`. -/
def escapedDoubleQuote : List Nat := [38, 113, 117, 111, 116, 59]

/-- The struct `Encoder`: the embedded `io.Writer` (as the log of the slices written to
it), the scanner mode and the six-byte scratch buffer. -/
structure Encoder where
  Writer : List (List Nat)
  state : State
  uchar : List Nat
  deriving DecidableEq, Repr

/-- `NewEncoder(w)`: mode `stateTop` and a zeroed scratch buffer of length 6 over the sink
whose log so far is `w`. -/
def NewEncoder (w : List (List Nat)) : Encoder :=
  { Writer := w, state := stateTop, uchar := List.replicate 6 0 }

/-- One call `w.Writer.Write(p)`: the slice `p` is appended to the sink log. -/
def Encoder.sinkWrite (w : Encoder) (p : List Nat) : Encoder :=
  { w with Writer := w.Writer ++ [p] }

/-- The Go slice expression `s[lo:hi]`. -/
def slice (s : List Nat) (lo hi : Nat) : List Nat :=
  (s.take hi).drop lo

/-- The value of one digit byte as `strconv.ParseUint` reads it: `'0'..'9'`, then letters
of either case counted from 10. -/
def digitVal (c : Nat) : Option Nat :=
  if 48 ≤ c ∧ c ≤ 57 then some (c - 48)
  else if 97 ≤ c ∧ c ≤ 122 then some (c - 97 + 10)
  else if 65 ≤ c ∧ c ≤ 90 then some (c - 65 + 10)
  else none

/-- The digit loop of `strconv.ParseUint`: `none` stands for a non-nil error, either a
syntax error (a byte that is no digit of the base) or a range error (the running value
exceeds `maxVal`). -/
def parseDigits (base maxVal : Nat) : List Nat → Nat → Option Nat
  | [], n => some n
  | c :: rest, n =>
    match digitVal c with
    | none => none
    | some d =>
      if base ≤ d then none
      else if maxVal < n * base + d then none
      else parseDigits base maxVal rest (n * base + d)

/-- The standard-library call `strconv.ParseUint(s, base, bitSize)` for an explicit base
between 2 and 36: `some v` when the error is nil, `none` when it is not. -/
def ParseUint (s : List Nat) (base bitSize : Nat) : Option Nat :=
  if s = [] then none else parseDigits base (2 ^ bitSize - 1) s 0

/-- The body of the `for pos, c := range s` loop of `Write`, on the encoder and the loop
variable `last`. -/
def step (s : List Nat) (pos c : Nat) (w : Encoder) (last : Nat) : Encoder × Nat :=
  match w.state with
  | stateTop =>
    if c = 34 then ({ w with state := stateQuote }, last) else (w, last)
  | stateQuote =>
    if c = 34 then ({ w with state := stateTop }, last)
    else if c = 92 then
      ({ w.sinkWrite (slice s last pos) with state := stateBackslash }, last)
    else if c = 38 then
      ((w.sinkWrite (slice s last pos)).sinkWrite escapedAmp, pos + 1)
    else if c = 60 then
      ((w.sinkWrite (slice s last pos)).sinkWrite escapedLT, pos + 1)
    else if c = 62 then
      ((w.sinkWrite (slice s last pos)).sinkWrite escapedGT, pos + 1)
    else if c = 39 then
      ((w.sinkWrite (slice s last pos)).sinkWrite escapedSingleQuote, pos + 1)
    else (w, last)
  | stateBackslash =>
    if c = 34 then
      ({ w.sinkWrite escapedDoubleQuote with state := stateQuote }, pos + 1)
    else if c = 117 then
      ({ w with uchar := (w.uchar.set 0 92).set 1 117, state := stateUnicode1 }, last)
    else
      let u := (w.uchar.set 0 92).set 1 c
      ({ Writer := w.Writer ++ [slice u 0 2], state := stateQuote, uchar := u }, pos + 1)
  | stateUnicode1 =>
    ({ w with uchar := w.uchar.set 2 c, state := stateUnicode2 }, last)
  | stateUnicode2 =>
    ({ w with uchar := w.uchar.set 3 c, state := stateUnicode3 }, last)
  | stateUnicode3 =>
    ({ w with uchar := w.uchar.set 4 c, state := stateUnicode4 }, last)
  | stateUnicode4 =>
    let u := w.uchar.set 5 c
    let val := (ParseUint (slice u 2 6) 16 8).getD 0
    let v8 := val % 256
    let p :=
      if v8 = 34 then escapedDoubleQuote
      else if v8 = 38 then escapedAmp
      else if v8 = 60 then escapedLT
      else if v8 = 62 then escapedGT
      else if v8 = 39 then escapedSingleQuote
      else u
    ({ Writer := w.Writer ++ [p], state := stateQuote, uchar := u }, pos + 1)

/-- The loop `for pos, c := range s` of `Write`, entered at index `pos` with the bytes
`rest` of `s` still to be read. -/
def loop (s : List Nat) : List Nat → Nat → Encoder × Nat → Encoder × Nat
  | [], _, acc => acc
  | c :: rest, pos, acc => loop s rest (pos + 1) (step s pos c acc.1 acc.2)

/-- The method `(*Encoder).Write`: the encoder after the call, the returned count, and the
returned error (`none` is `nil`). -/
def Write (w : Encoder) (s : List Nat) : Encoder × Nat × Option String :=
  let r := loop s s 0 (w, 0)
  let total := s.length
  let w1 :=
    if r.2 < total ∧ (r.1.state = stateTop ∨ r.1.state = stateQuote) then
      r.1.sinkWrite (slice s r.2 total)
    else r.1
  (w1, total, none)

/-- Successive calls of `Write`, one per chunk, on the same encoder. -/
def WriteAll (w : Encoder) (chunks : List (List Nat)) : Encoder :=
  chunks.foldl (fun e c => (Write e c).1) w

/-- Everything the sink has received: the concatenation of all slices written to it. -/
def written (w : Encoder) : List Nat :=
  w.Writer.flatten

/-! ## The scanner as a byte-by-byte transducer

`Write` defers the copying of unmodified bytes (it remembers `last` and writes a whole run
at once).  The definitions below describe, for one input byte, the bytes that byte
contributes to the sink and the configuration it leads to; the lemmas further down show
that `Write` realises exactly this transducer. -/

/-- The slice written on the fourth digit of a `\u` escape, for the scratch buffer `u`
already holding that digit: the `switch uint8(val)` of `Write`. -/
def unicodeOut (u : List Nat) : List Nat :=
  let v8 := (ParseUint (slice u 2 6) 16 8).getD 0 % 256
  if v8 = 34 then escapedDoubleQuote
  else if v8 = 38 then escapedAmp
  else if v8 = 60 then escapedLT
  else if v8 = 62 then escapedGT
  else if v8 = 39 then escapedSingleQuote
  else u

/-- Mode and scratch buffer after one byte `c`. -/
def byteNext (st : State) (u : List Nat) (c : Nat) : State × List Nat :=
  match st with
  | stateTop => if c = 34 then (stateQuote, u) else (stateTop, u)
  | stateQuote =>
    if c = 34 then (stateTop, u)
    else if c = 92 then (stateBackslash, u)
    else (stateQuote, u)
  | stateBackslash =>
    if c = 34 then (stateQuote, u)
    else if c = 117 then (stateUnicode1, (u.set 0 92).set 1 117)
    else (stateQuote, (u.set 0 92).set 1 c)
  | stateUnicode1 => (stateUnicode2, u.set 2 c)
  | stateUnicode2 => (stateUnicode3, u.set 3 c)
  | stateUnicode3 => (stateUnicode4, u.set 4 c)
  | stateUnicode4 => (stateQuote, u.set 5 c)

/-- The bytes that one input byte `c` contributes to the sink. -/
def byteOut (st : State) (u : List Nat) (c : Nat) : List Nat :=
  match st with
  | stateTop => [c]
  | stateQuote =>
    if c = 34 then [c]
    else if c = 92 then []
    else if c = 38 then escapedAmp
    else if c = 60 then escapedLT
    else if c = 62 then escapedGT
    else if c = 39 then escapedSingleQuote
    else [c]
  | stateBackslash =>
    if c = 34 then escapedDoubleQuote
    else if c = 117 then []
    else slice ((u.set 0 92).set 1 c) 0 2
  | stateUnicode1 => []
  | stateUnicode2 => []
  | stateUnicode3 => []
  | stateUnicode4 => unicodeOut (u.set 5 c)

/-- Mode and scratch buffer after a run of bytes. -/
def streamState (st : State) (u : List Nat) : List Nat → State × List Nat
  | [] => (st, u)
  | c :: rest => streamState (byteNext st u c).1 (byteNext st u c).2 rest

/-- The bytes that a run of input bytes contributes to the sink. -/
def streamOut (st : State) (u : List Nat) : List Nat → List Nat
  | [] => []
  | c :: rest => byteOut st u c ++ streamOut (byteNext st u c).1 (byteNext st u c).2 rest

/-- The bytes read in the current call that are still to be copied: in the modes
`stateTop` and `stateQuote` everything from index `last` on, otherwise nothing. -/
def pending (st : State) (last : Nat) (pre : List Nat) : List Nat :=
  if st = stateTop ∨ st = stateQuote then pre.drop last else []

/-! ## Definitions that state the specification -/

/-- The entity that replaces a byte inside a string literal: `&amp;` for `'&'`, `&lt;` for
`'<'`, `&gt;` for `'>'`, `&#x27;` for the apostrophe; every other byte stands for itself. -/
def entityOf (c : Nat) : List Nat :=
  if c = 38 then escapedAmp
  else if c = 60 then escapedLT
  else if c = 62 then escapedGT
  else if c = 39 then escapedSingleQuote
  else [c]

/-- The text `rest` with every byte that is preceded by an odd number of `'"'` bytes
replaced by its entity, when `pre` is the text that precedes `rest`. -/
def substituteAfter (pre : List Nat) : List Nat → List Nat
  | [] => []
  | c :: rest =>
    (if pre.count 34 % 2 = 1 then entityOf c else [c]) ++ substituteAfter (pre ++ [c]) rest

/-- The text `s` with each `'&'`, `'<'`, `'>'`, `'\''` that is preceded in `s` by an odd
number of `'"'` bytes replaced by its entity, and every other byte copied. -/
def substituteInStrings (s : List Nat) : List Nat :=
  substituteAfter [] s

/-- Whether a byte is a hexadecimal digit: `'0'..'9'`, `'a'..'f'` or `'A'..'F'`. -/
def isHexDigit (c : Nat) : Bool :=
  (48 ≤ c && c ≤ 57) || (97 ≤ c && c ≤ 102) || (65 ≤ c && c ≤ 70)

/-- The value of a hexadecimal digit. -/
def hexDigitValue (c : Nat) : Nat :=
  if c ≤ 57 then c - 48 else if 97 ≤ c then c - 87 else c - 55

/-- The number that a run of hexadecimal digits denotes, most significant digit first. -/
def hexValue (digits : List Nat) : Nat :=
  digits.foldl (fun n c => n * 16 + hexDigitValue c) 0

/-- The entity of a character code that is one of the five targets `'"'`, `'&'`, `'<'`,
`'>'`, `'\''`, and `none` for every other code. -/
def targetEntity (v : Nat) : Option (List Nat) :=
  if v = 34 then some escapedDoubleQuote
  else if v = 38 then some escapedAmp
  else if v = 60 then some escapedLT
  else if v = 62 then some escapedGT
  else if v = 39 then some escapedSingleQuote
  else none

/-- The `\u` escapes of the four substituted characters: the four digit bytes (hex letters
in either case), the literal byte they denote, and the entity of that byte. -/
def unicodeForms : List (List Nat × Nat × List Nat) :=
  [([48, 48, 51, 99], 60, escapedLT), ([48, 48, 51, 67], 60, escapedLT),
   ([48, 48, 51, 101], 62, escapedGT), ([48, 48, 51, 69], 62, escapedGT),
   ([48, 48, 50, 54], 38, escapedAmp), ([48, 48, 50, 55], 39, escapedSingleQuote)]

/-- The bytes that may follow a backslash in a two-byte JSON escape: `'"'`, backslash,
`'/'`, `'b'`, `'f'`, `'n'`, `'r'`, `'t'`. -/
def isSimpleEscape (c : Nat) : Bool :=
  c = 34 || c = 92 || c = 47 || c = 98 || c = 102 || c = 110 || c = 114 || c = 116

/-- Whether a text is a well-formed JSON string body: it has no raw `'"'`, and every
backslash is followed by one of `'"'`, backslash, `'/'`, `'b'`, `'f'`, `'n'`, `'r'`,
`'t'`, or by `'u'` and four hexadecimal digits. -/
def wfBody : List Nat → Bool
  | [] => true
  | c :: rest =>
    if c = 34 then false
    else if c = 92 then
      match rest with
      | [] => false
      | e :: rest2 =>
        if e = 117 then
          match rest2 with
          | a :: b :: c :: d :: rest3 =>
            isHexDigit a && isHexDigit b && isHexDigit c && isHexDigit d && wfBody rest3
          | _ => false
        else isSimpleEscape e && wfBody rest2
    else wfBody rest

/-- The five entities the encoder writes. -/
def entities : List (List Nat) :=
  [escapedAmp, escapedLT, escapedGT, escapedSingleQuote, escapedDoubleQuote]

/-- A text that is safe inside HTML: it holds none of `'<'`, `'>'`, `'\''`, `'"'`, and
every `'&'` in it is the first byte of one of the five entities. -/
def HTMLSafe (t : List Nat) : Prop :=
  60 ∉ t ∧ 62 ∉ t ∧ 39 ∉ t ∧ 34 ∉ t ∧
  ∀ pre post : List Nat, t = pre ++ 38 :: post → ∃ e ∈ entities, e <+: 38 :: post

/-- A well-formed JSON string literal: `'"'`, then a well-formed body without a byte
below `0x20`, then `'"'`. -/
def JSONStringLiteral (s : List Nat) : Prop :=
  ∃ body : List Nat, s = 34 :: body ++ [34] ∧ wfBody body = true ∧ ∀ b ∈ body, 32 ≤ b

/-! ## The diagnostic `IsHTMLEscaped` -/

/-- The standard-library call `strings.ContainsAny(s, chars)` for a set `chars` of ASCII
characters: whether some byte of `s` is one of them. (A byte below `0x80` always decodes
as the character itself, so for ASCII `chars` the test on characters is the test on
bytes.) -/
def ContainsAny (s chars : List Nat) : Bool :=
  s.any (fun c => chars.contains c)

/-- The standard-library call `strings.Contains(s, substr)`: whether `substr` occurs in
`s`. -/
def Contains (s substr : List Nat) : Bool :=
  s.tails.any (fun t => substr.isPrefixOf t)

/-- The function `IsHTMLEscaped`; the set passed to `ContainsAny` holds `'<'`, `'>'`,
`'\''`, `'"'` and the string passed to `Contains` is `"&"`. -/
def IsHTMLEscaped (s : List Nat) : Bool :=
  if ContainsAny s [60, 62, 39, 34] then false
  else if !Contains s [38] then true
  else true

/-! ## Further definitions that state the specification -/

/-- The transition function of the scanner modes: the mode after one byte, given only the
mode before it and the byte. -/
def nextMode (st : State) (c : Nat) : State :=
  match st with
  | stateTop => if c = 34 then stateQuote else stateTop
  | stateQuote => if c = 34 then stateTop else if c = 92 then stateBackslash else stateQuote
  | stateBackslash => if c = 117 then stateUnicode1 else stateQuote
  | stateUnicode1 => stateUnicode2
  | stateUnicode2 => stateUnicode3
  | stateUnicode3 => stateUnicode4
  | stateUnicode4 => stateQuote

/-- Whether a chunk read from mode `st` is processed entirely in the modes `stateTop` and
`stateQuote` and holds no byte that triggers a flush: no backslash inside a string and no
`'&'`, `'<'`, `'>'`, `'\''` inside a string. -/
def plainRun : State → List Nat → Bool
  | stateTop, [] => true
  | stateQuote, [] => true
  | stateTop, c :: rest => plainRun (if c = 34 then stateQuote else stateTop) rest
  | stateQuote, c :: rest =>
    !(c = 92 || c = 38 || c = 60 || c = 62 || c = 39) &&
      plainRun (if c = 34 then stateTop else stateQuote) rest
  | _, _ => false

/-! ## `Write` over a sink that may fail, with its run-time checks

The definitions above keep of the sink only the slices handed to it. The ones below make
explicit what the first embedding leaves out: the sink is any `io.Writer`, whose `Write`
answers with a count and an error; every sink call is recorded together with the scan
state in which it was made and the error it returned; and an index or slice expression
that is out of range ends the run (`none` stands for the run-time panic). The statements
of `Write` are taken in the order of the source. -/

/-- An `io.Writer`: how it answers `Write(p)` in the sink state `σ`, with its next state,
the count and the error (`none` is `nil`). -/
structure Sink (σ : Type) where
  Write : σ → List Nat → σ × Nat × Option String

/-- The record of one sink call: mode and scratch buffer at the moment of the call, the
slice passed, and the error the sink returned. -/
structure SinkCall where
  state : State
  uchar : List Nat
  arg : List Nat
  err : Option String
  deriving DecidableEq, Repr

/-- The struct `Encoder` over a sink in state `Writer`, together with the record of the
sink calls made so far. -/
structure SinkEncoder (σ : Type) where
  Writer : σ
  state : State
  uchar : List Nat
  calls : List SinkCall

/-- `NewEncoder(w)` over the sink state `w`. -/
def NewSinkEncoder {σ : Type} (w : σ) : SinkEncoder σ :=
  { Writer := w, state := stateTop, uchar := List.replicate 6 0, calls := [] }

/-- One statement `w.Writer.Write(p)`: the sink moves on, count and error are discarded
(the call is recorded with the error it returned). -/
def SinkEncoder.sinkWrite {σ : Type} (snk : Sink σ) (w : SinkEncoder σ) (p : List Nat) :
    SinkEncoder σ :=
  { w with
    Writer := (snk.Write w.Writer p).1,
    calls := w.calls ++
      [{ state := w.state, uchar := w.uchar, arg := p, err := (snk.Write w.Writer p).2.2 }] }

/-- The slice expression `s[lo:hi]` with its check `0 <= lo <= hi <= len(s)`. -/
def sliceChecked (s : List Nat) (lo hi : Nat) : Option (List Nat) :=
  if lo ≤ hi ∧ hi ≤ s.length then some (slice s lo hi) else none

/-- The assignment `u[i] = c` with its check `i < len(u)`. -/
def assignChecked (u : List Nat) (i c : Nat) : Option (List Nat) :=
  if i < u.length then some (u.set i c) else none

/-- The body of the loop of `Write` over a sink that may fail. -/
def stepSink {σ : Type} (snk : Sink σ) (s : List Nat) (pos c : Nat) (w : SinkEncoder σ)
    (last : Nat) : Option (SinkEncoder σ × Nat) :=
  match w.state with
  | stateTop =>
    if c = 34 then some ({ w with state := stateQuote }, last) else some (w, last)
  | stateQuote =>
    if c = 34 then some ({ w with state := stateTop }, last)
    else if c = 92 then do
      let p ← sliceChecked s last pos
      some ({ w.sinkWrite snk p with state := stateBackslash }, last)
    else if c = 38 then do
      let p ← sliceChecked s last pos
      some ((w.sinkWrite snk p).sinkWrite snk escapedAmp, pos + 1)
    else if c = 60 then do
      let p ← sliceChecked s last pos
      some ((w.sinkWrite snk p).sinkWrite snk escapedLT, pos + 1)
    else if c = 62 then do
      let p ← sliceChecked s last pos
      some ((w.sinkWrite snk p).sinkWrite snk escapedGT, pos + 1)
    else if c = 39 then do
      let p ← sliceChecked s last pos
      some ((w.sinkWrite snk p).sinkWrite snk escapedSingleQuote, pos + 1)
    else some (w, last)
  | stateBackslash =>
    if c = 34 then
      some ({ w.sinkWrite snk escapedDoubleQuote with state := stateQuote }, pos + 1)
    else if c = 117 then do
      let u0 ← assignChecked w.uchar 0 92
      let u1 ← assignChecked u0 1 117
      some ({ w with uchar := u1, state := stateUnicode1 }, last)
    else do
      let u0 ← assignChecked w.uchar 0 92
      let u1 ← assignChecked u0 1 c
      let p ← sliceChecked u1 0 2
      some (SinkEncoder.sinkWrite snk { w with uchar := u1, state := stateQuote } p, pos + 1)
  | stateUnicode1 => do
    let u ← assignChecked w.uchar 2 c
    some ({ w with uchar := u, state := stateUnicode2 }, last)
  | stateUnicode2 => do
    let u ← assignChecked w.uchar 3 c
    some ({ w with uchar := u, state := stateUnicode3 }, last)
  | stateUnicode3 => do
    let u ← assignChecked w.uchar 4 c
    some ({ w with uchar := u, state := stateUnicode4 }, last)
  | stateUnicode4 => do
    let u ← assignChecked w.uchar 5 c
    let digits ← sliceChecked u 2 6
    let val := (ParseUint digits 16 8).getD 0
    let v8 := val % 256
    let p :=
      if v8 = 34 then escapedDoubleQuote
      else if v8 = 38 then escapedAmp
      else if v8 = 60 then escapedLT
      else if v8 = 62 then escapedGT
      else if v8 = 39 then escapedSingleQuote
      else u
    some (SinkEncoder.sinkWrite snk { w with uchar := u, state := stateQuote } p, pos + 1)

/-- The loop of `Write` over a sink that may fail. -/
def loopSink {σ : Type} (snk : Sink σ) (s : List Nat) :
    List Nat → Nat → SinkEncoder σ × Nat → Option (SinkEncoder σ × Nat)
  | [], _, acc => some acc
  | c :: rest, pos, acc =>
    match stepSink snk s pos c acc.1 acc.2 with
    | none => none
    | some acc1 => loopSink snk s rest (pos + 1) acc1

/-- The method `Write` over a sink that may fail: `none` when the run panics, otherwise
the encoder after the call, the returned count and the returned error. -/
def WriteSink {σ : Type} (snk : Sink σ) (w : SinkEncoder σ) (s : List Nat) :
    Option (SinkEncoder σ × Nat × Option String) :=
  match loopSink snk s s 0 (w, 0) with
  | none => none
  | some r =>
    let total := s.length
    if r.2 < total ∧ (r.1.state = stateTop ∨ r.1.state = stateQuote) then
      match sliceChecked s r.2 total with
      | none => none
      | some p => some (r.1.sinkWrite snk p, total, none)
    else some (r.1, total, none)

/-- Successive calls of `Write` over a sink that may fail, one per chunk. -/
def WriteAllSink {σ : Type} (snk : Sink σ) (w : SinkEncoder σ) :
    List (List Nat) → Option (SinkEncoder σ)
  | [] => some w
  | c :: chunks =>
    match WriteSink snk w c with
    | none => none
    | some r => WriteAllSink snk r.1 chunks

/-- The encoder of the first embedding that a `SinkEncoder` stands for: its sink log is
the list of the slices passed in the recorded calls. -/
def SinkEncoder.erase {σ : Type} (w : SinkEncoder σ) : Encoder :=
  { Writer := w.calls.map SinkCall.arg, state := w.state, uchar := w.uchar }

/-- A sink every write of which fails with the error `"sink failed"`. -/
def brokenSink : Sink Unit :=
  { Write := fun _ _ => ((), 0, some "sink failed") }

/-- A sink that never fails: it keeps every slice and answers with its length and a nil
error. -/
def logSink : Sink (List (List Nat)) :=
  { Write := fun log p => (log ++ [p], p.length, none) }

end XssJSON

namespace XssJSON

open State

/-! ## `Write` realises the transducer -/

theorem slice_prefix (pre rest : List Nat) (last : Nat) :
    slice (pre ++ rest) last pre.length = pre.drop last := by
  simp [slice]

theorem written_sinkWrite (w : Encoder) (p : List Nat) :
    written (w.sinkWrite p) = written w ++ p := by
  simp [written, Encoder.sinkWrite]

theorem step_spec (pre rest : List Nat) (c : Nat) (w : Encoder) (last : Nat)
    (hl : last ≤ pre.length) :
    (step (pre ++ c :: rest) pre.length c w last).1.state = (byteNext w.state w.uchar c).1 ∧
    (step (pre ++ c :: rest) pre.length c w last).1.uchar = (byteNext w.state w.uchar c).2 ∧
    (step (pre ++ c :: rest) pre.length c w last).2 ≤ pre.length + 1 ∧
    written (step (pre ++ c :: rest) pre.length c w last).1 ++
        pending (step (pre ++ c :: rest) pre.length c w last).1.state
          (step (pre ++ c :: rest) pre.length c w last).2 (pre ++ [c]) =
      written w ++ pending w.state last pre ++ byteOut w.state w.uchar c := by
  obtain ⟨W, st, u⟩ := w
  have hd : (pre ++ [c]).drop last = pre.drop last ++ [c] := by
    rw [List.drop_append_of_le_length hl]
  have hd1 : (pre ++ [c]).drop (pre.length + 1) = [] := by simp
  cases st <;>
    simp only [step, byteNext, byteOut, pending, slice_prefix, Encoder.sinkWrite, written,
      unicodeOut] <;>
    split_ifs <;>
    simp_all [written] <;>
    omega

theorem loop_spec (rest : List Nat) :
    ∀ (pre : List Nat) (w : Encoder) (last : Nat), last ≤ pre.length →
      (loop (pre ++ rest) rest pre.length (w, last)).1.state
          = (streamState w.state w.uchar rest).1 ∧
      (loop (pre ++ rest) rest pre.length (w, last)).1.uchar
          = (streamState w.state w.uchar rest).2 ∧
      (loop (pre ++ rest) rest pre.length (w, last)).2 ≤ (pre ++ rest).length ∧
      written (loop (pre ++ rest) rest pre.length (w, last)).1 ++
          pending (loop (pre ++ rest) rest pre.length (w, last)).1.state
            (loop (pre ++ rest) rest pre.length (w, last)).2 (pre ++ rest) =
        written w ++ pending w.state last pre ++ streamOut w.state w.uchar rest := by
  induction rest with
  | nil =>
    intro pre w last hl
    simp [loop, streamState, streamOut, hl]
  | cons c rest ih =>
    intro pre w last hl
    obtain ⟨h1, h2, h3, h4⟩ := step_spec pre rest c w last hl
    have hs : pre ++ c :: rest = (pre ++ [c]) ++ rest := by simp
    have hlen : pre.length + 1 = (pre ++ [c]).length := by simp
    have hloop : loop (pre ++ c :: rest) (c :: rest) pre.length (w, last) =
        loop ((pre ++ [c]) ++ rest) rest (pre ++ [c]).length
          ((step (pre ++ c :: rest) pre.length c w last).1,
           (step (pre ++ c :: rest) pre.length c w last).2) := by
      simp [loop]
    obtain ⟨k1, k2, k3, k4⟩ := ih (pre ++ [c]) (step (pre ++ c :: rest) pre.length c w last).1
      (step (pre ++ c :: rest) pre.length c w last).2 (by rw [← hlen]; exact h3)
    rw [hloop]
    generalize step (pre ++ c :: rest) pre.length c w last = r at h1 h2 h3 h4 k1 k2 k3 k4 ⊢
    rw [hs]
    refine ⟨?_, ?_, k3, ?_⟩
    · rw [k1, h1, h2]; rfl
    · rw [k2, h1, h2]; rfl
    · rw [k4, h4, h1, h2]
      simp [streamOut]

/-- What one call of `Write` does: it appends to the sink exactly the bytes the transducer
emits for the chunk, moves mode and scratch buffer as the transducer does, returns the
length of the chunk and a nil error. -/
theorem Write_spec (w : Encoder) (s : List Nat) :
    written (Write w s).1 = written w ++ streamOut w.state w.uchar s ∧
    (Write w s).1.state = (streamState w.state w.uchar s).1 ∧
    (Write w s).1.uchar = (streamState w.state w.uchar s).2 ∧
    (Write w s).2 = (s.length, none) := by
  obtain ⟨h1, h2, h3, h4⟩ := loop_spec s [] w 0 (Nat.le_refl _)
  simp only [List.nil_append, List.length_nil] at h1 h2 h3 h4
  have hp : pending w.state 0 [] = [] := by simp [pending]
  rw [hp, List.append_nil] at h4
  refine ⟨?_, ?_, ?_, rfl⟩
  · rw [← h4]
    simp only [Write]
    split_ifs with hc
    · rw [written_sinkWrite]
      simp [pending, hc.2, slice]
    · by_cases hst : (loop s s 0 (w, 0)).1.state = stateTop ∨
          (loop s s 0 (w, 0)).1.state = stateQuote
      · have : (loop s s 0 (w, 0)).2 = s.length := by
          have hge : ¬ (loop s s 0 (w, 0)).2 < s.length := fun h => hc ⟨h, hst⟩
          omega
        simp [pending, hst, this]
      · simp [pending, hst]
  · rw [← h1]
    simp only [Write]
    split_ifs <;> simp [Encoder.sinkWrite]
  · rw [← h2]
    simp only [Write]
    split_ifs <;> simp [Encoder.sinkWrite]

/-- The scratch buffer keeps its length: `Write` only assigns to its elements. -/
theorem streamState_length (s : List Nat) :
    ∀ (st : State) (u : List Nat), (streamState st u s).2.length = u.length := by
  induction s with
  | nil => intro st u; rfl
  | cons c s ih =>
    intro st u
    rw [streamState, ih]
    cases st <;> simp only [byteNext] <;> (try split_ifs) <;> simp

/-- The scratch buffer of an encoder made by `NewEncoder` has length 6 after any number
of calls of `Write`. -/
theorem Write_uchar_length (w : Encoder) (s : List Nat) :
    (Write w s).1.uchar.length = w.uchar.length := by
  rw [(Write_spec w s).2.2.1, streamState_length]

theorem streamState_append (a b : List Nat) :
    ∀ (st : State) (u : List Nat),
      streamState st u (a ++ b) =
        streamState (streamState st u a).1 (streamState st u a).2 b := by
  induction a with
  | nil => intro st u; rfl
  | cons c a ih => intro st u; simp [streamState, ih]

theorem streamOut_append (a b : List Nat) :
    ∀ (st : State) (u : List Nat),
      streamOut st u (a ++ b) =
        streamOut st u a ++ streamOut (streamState st u a).1 (streamState st u a).2 b := by
  induction a with
  | nil => intro st u; rfl
  | cons c a ih => intro st u; simp [streamState, streamOut, ih]

theorem WriteAll_spec (chunks : List (List Nat)) :
    ∀ w : Encoder,
      written (WriteAll w chunks) = written w ++ streamOut w.state w.uchar chunks.flatten ∧
      (WriteAll w chunks).state = (streamState w.state w.uchar chunks.flatten).1 ∧
      (WriteAll w chunks).uchar = (streamState w.state w.uchar chunks.flatten).2 := by
  induction chunks with
  | nil => intro w; simp [WriteAll, streamOut, streamState]
  | cons c cs ih =>
    intro w
    obtain ⟨h1, h2, h3, _⟩ := Write_spec w c
    obtain ⟨k1, k2, k3⟩ := ih (Write w c).1
    have hw : WriteAll w (c :: cs) = WriteAll (Write w c).1 cs := by simp [WriteAll]
    rw [hw, List.flatten_cons, streamOut_append, streamState_append, k1, k2, k3, h1, h2, h3]
    simp

/-! ## Chunk invariance -/

/-- C1: chunk invariance. For every byte sequence `s` and every partition of `s` into
consecutive non-empty chunks, writing the chunks one after the other to a fresh encoder
leaves in the sink exactly the bytes that a single `Write(s)` on a fresh encoder leaves
there, and ends in the same mode (and with the same scratch buffer). The chunks need not
even be non-empty. -/
theorem chunk_invariance (s : List Nat) (chunks : List (List Nat))
    (hpart : chunks.flatten = s) :
    written (WriteAll (NewEncoder []) chunks) = written (Write (NewEncoder []) s).1 ∧
    (WriteAll (NewEncoder []) chunks).state = (Write (NewEncoder []) s).1.state ∧
    (WriteAll (NewEncoder []) chunks).uchar = (Write (NewEncoder []) s).1.uchar := by
  obtain ⟨h1, h2, h3⟩ := WriteAll_spec chunks (NewEncoder [])
  obtain ⟨k1, k2, k3, _⟩ := Write_spec (NewEncoder []) s
  rw [h1, h2, h3, k1, k2, k3, hpart]
  exact ⟨rfl, rfl, rfl⟩

/-- C1, at a string holding the escape backslash-`u003c`, split after the opening quote,
between the backslash and the `u`, and between the hex digits. -/
theorem chunk_invariance_witness :
    [[34], [92], [117, 48], [48, 51], [99, 34]].flatten = [34, 92, 117, 48, 48, 51, 99, 34] ∧
    (written (WriteAll (NewEncoder []) [[34], [92], [117, 48], [48, 51], [99, 34]]) =
        written (Write (NewEncoder []) [34, 92, 117, 48, 48, 51, 99, 34]).1 ∧
      (WriteAll (NewEncoder []) [[34], [92], [117, 48], [48, 51], [99, 34]]).state =
        (Write (NewEncoder []) [34, 92, 117, 48, 48, 51, 99, 34]).1.state ∧
      (WriteAll (NewEncoder []) [[34], [92], [117, 48], [48, 51], [99, 34]]).uchar =
        (Write (NewEncoder []) [34, 92, 117, 48, 48, 51, 99, 34]).1.uchar) :=
  ⟨by decide,
    chunk_invariance [34, 92, 117, 48, 48, 51, 99, 34]
      [[34], [92], [117, 48], [48, 51], [99, 34]] (by decide)⟩

/-! ## Input without backslashes -/

/-- The mode the scanner is in after the backslash-free text `pre`, read from `stateTop`. -/
theorem streamOut_no_backslash (rest : List Nat) :
    ∀ (pre u : List Nat), 92 ∉ rest →
      streamOut (if pre.count 34 % 2 = 1 then stateQuote else stateTop) u rest =
        substituteAfter pre rest := by
  induction rest with
  | nil => intro pre u _; rfl
  | cons c rest ih =>
    intro pre u h
    have hc : c ≠ 92 := fun e => h (by simp [e])
    have hr : 92 ∉ rest := fun e => h (by simp [e])
    have hih := ih (pre ++ [c]) u hr
    rw [List.count_append] at hih
    by_cases hodd : pre.count 34 % 2 = 1
    · by_cases h34 : c = 34
      · have hpar : ¬ (List.count 34 pre + List.count 34 [c]) % 2 = 1 := by
          simp [h34]; omega
        rw [if_neg hpar] at hih
        simp [streamOut, substituteAfter, hodd, h34, byteOut, byteNext, entityOf, hih,
          escapedAmp, escapedLT, escapedGT, escapedSingleQuote]
      · have hpar : (List.count 34 pre + List.count 34 [c]) % 2 = 1 := by
          simp [h34, hodd, List.count_cons, Ne.symm h34]
        rw [if_pos hpar] at hih
        simp only [streamOut, substituteAfter, hodd, if_true, byteOut, byteNext, if_neg h34,
          if_neg hc, entityOf, hih]
    · by_cases h34 : c = 34
      · have hpar : (List.count 34 pre + List.count 34 [c]) % 2 = 1 := by
          simp [h34]; omega
        rw [if_pos hpar] at hih
        simp [streamOut, substituteAfter, hodd, h34, byteOut, byteNext, hih]
      · have hpar : ¬ (List.count 34 pre + List.count 34 [c]) % 2 = 1 := by
          simp [h34, hodd, List.count_cons, Ne.symm h34]
        rw [if_neg hpar] at hih
        simp [streamOut, substituteAfter, hodd, h34, byteOut, byteNext, hih]

/-- C2: escape coverage on backslash-free input. For every input `s` without a backslash
byte, a fresh encoder writes `s` with each `'&'`, `'<'`, `'>'`, `'\''` that is preceded
in `s` by an odd number of `'"'` bytes replaced by `&amp;`, `&lt;`, `&gt;`, `&#x27;`, and
every other byte copied unchanged and in order. -/
theorem escape_coverage_no_backslash (s : List Nat) (h : 92 ∉ s) :
    written (Write (NewEncoder []) s).1 = substituteInStrings s := by
  rw [(Write_spec (NewEncoder []) s).1]
  have := streamOut_no_backslash s [] (NewEncoder []).uchar h
  simpa [written, NewEncoder, substituteInStrings] using this

/-- C2, at `{"k":"a<b&c'>"}<`: the four bytes inside the string are replaced, the `<`
after the closing quote is not. -/
theorem escape_coverage_no_backslash_witness :
    92 ∉ [123, 34, 107, 34, 58, 34, 97, 60, 98, 38, 99, 39, 62, 34, 125, 60] ∧
    written (Write (NewEncoder [])
        [123, 34, 107, 34, 58, 34, 97, 60, 98, 38, 99, 39, 62, 34, 125, 60]).1 =
      substituteInStrings [123, 34, 107, 34, 58, 34, 97, 60, 98, 38, 99, 39, 62, 34, 125, 60] :=
  ⟨by decide, escape_coverage_no_backslash _ (by decide)⟩

/-! ## Escape sequences -/

theorem digitVal_of_hex (c : Nat) (h : isHexDigit c = true) :
    digitVal c = some (hexDigitValue c) ∧ hexDigitValue c < 16 := by
  simp only [isHexDigit, Bool.or_eq_true, Bool.and_eq_true, decide_eq_true_eq] at h
  unfold digitVal hexDigitValue
  split_ifs <;> simp <;> omega

theorem digitVal_of_not_hex (c d : Nat) (h : isHexDigit c = false) (hd : digitVal c = some d) :
    16 ≤ d := by
  simp only [isHexDigit, Bool.or_eq_false_iff, Bool.and_eq_false_iff, decide_eq_false_iff_not]
    at h
  unfold digitVal at hd
  split_ifs at hd <;> simp at hd <;> omega

theorem parseDigits_cons (c : Nat) (rest : List Nat) (n : Nat) :
    parseDigits 16 255 (c :: rest) n =
      if isHexDigit c = true ∧ n * 16 + hexDigitValue c ≤ 255 then
        parseDigits 16 255 rest (n * 16 + hexDigitValue c)
      else none := by
  cases hx : isHexDigit c
  · simp only [parseDigits, Bool.false_eq_true, false_and, if_false]
    cases hd : digitVal c with
    | none => rfl
    | some d =>
      have := digitVal_of_not_hex c d hx hd
      simp [this]
  · obtain ⟨h1, h2⟩ := digitVal_of_hex c hx
    simp only [parseDigits, h1, true_and]
    split_ifs <;> first | rfl | omega

/-- What `strconv.ParseUint(s, 16, 8)` returns on four bytes: their hexadecimal value when
all four are hexadecimal digits and the value fits in 8 bits, an error otherwise. -/
theorem ParseUint_four (a b c d : Nat) :
    ParseUint [a, b, c, d] 16 8 =
      if (isHexDigit a = true ∧ isHexDigit b = true ∧ isHexDigit c = true ∧
          isHexDigit d = true) ∧ hexValue [a, b, c, d] ≤ 255 then
        some (hexValue [a, b, c, d])
      else none := by
  have h255 : 2 ^ 8 - 1 = 255 := by norm_num
  have hnil : ∀ n, parseDigits 16 255 [] n = some n := fun _ => rfl
  simp only [ParseUint, h255, parseDigits_cons, hnil, hexValue, List.foldl,
    if_neg (List.cons_ne_nil _ _)]
  split_ifs <;> first | rfl | (exfalso; simp_all; done) | (exfalso; simp_all; omega)

theorem length_six (u : List Nat) (h : u.length = 6) :
    ∃ a b c d e f, u = [a, b, c, d, e, f] := by
  match u, h with
  | [a, b, c, d, e, f], _ => exact ⟨a, b, c, d, e, f, rfl⟩

/-- The slice written at the end of a `\u` escape whose four bytes are `a b c d`: the
entity of their hexadecimal value when they are four hexadecimal digits whose value is a
target character, the six bytes of the escape otherwise. -/
theorem unicodeOut_six (x y a b c d : Nat) :
    unicodeOut [x, y, a, b, c, d] =
      if isHexDigit a = true ∧ isHexDigit b = true ∧ isHexDigit c = true ∧
          isHexDigit d = true then
        (targetEntity (hexValue [a, b, c, d])).getD [x, y, a, b, c, d]
      else [x, y, a, b, c, d] := by
  have hs : slice [x, y, a, b, c, d] 2 6 = [a, b, c, d] := by simp [slice]
  simp only [unicodeOut, hs, ParseUint_four, targetEntity]
  by_cases hx : isHexDigit a = true ∧ isHexDigit b = true ∧ isHexDigit c = true ∧
      isHexDigit d = true
  · by_cases hv : hexValue [a, b, c, d] ≤ 255
    · have hm : hexValue [a, b, c, d] % 256 = hexValue [a, b, c, d] :=
        Nat.mod_eq_of_lt (by omega)
      simp only [hx, hv, and_self, if_true, Option.getD_some, hm]
      split_ifs <;> rfl
    · have h1 : ¬ hexValue [a, b, c, d] = 34 := by omega
      have h2 : ¬ hexValue [a, b, c, d] = 38 := by omega
      have h3 : ¬ hexValue [a, b, c, d] = 60 := by omega
      have h4 : ¬ hexValue [a, b, c, d] = 62 := by omega
      have h5 : ¬ hexValue [a, b, c, d] = 39 := by omega
      simp [hx, hv, h1, h2, h3, h4, h5]
  · simp [hx]

/-- A complete `\u` escape read in `stateQuote`. -/
theorem streamOut_unicode (u : List Nat) (hu : u.length = 6) (a b c d : Nat) (rest : List Nat) :
    streamOut stateQuote u (92 :: 117 :: a :: b :: c :: d :: rest) =
      unicodeOut [92, 117, a, b, c, d] ++ streamOut stateQuote [92, 117, a, b, c, d] rest := by
  obtain ⟨u0, u1, u2, u3, u4, u5, rfl⟩ := length_six u hu
  simp [streamOut, byteOut, byteNext]

/-- A two-byte escape other than `\"` and `\u` read in `stateQuote`. -/
theorem streamOut_simple (u : List Nat) (hu : u.length = 6) (c : Nat) (h34 : c ≠ 34)
    (h117 : c ≠ 117) (rest : List Nat) :
    streamOut stateQuote u (92 :: c :: rest) =
      [92, c] ++ streamOut stateQuote ((u.set 0 92).set 1 c) rest := by
  obtain ⟨u0, u1, u2, u3, u4, u5, rfl⟩ := length_six u hu
  simp [streamOut, byteOut, byteNext, h34, h117, slice]

/-- The escape `\"` read in `stateQuote`. -/
theorem streamOut_quote (u : List Nat) (rest : List Nat) :
    streamOut stateQuote u (92 :: 34 :: rest) =
      escapedDoubleQuote ++ streamOut stateQuote u rest := by
  simp [streamOut, byteOut, byteNext]

/-- One `Write` of a complete `\u` escape in `stateQuote`. -/
theorem Write_unicode (w : Encoder) (hq : w.state = stateQuote) (hu : w.uchar.length = 6)
    (a b c d : Nat) :
    written (Write w [92, 117, a, b, c, d]).1 = written w ++ unicodeOut [92, 117, a, b, c, d] ∧
    (Write w [92, 117, a, b, c, d]).1.state = stateQuote := by
  obtain ⟨h1, h2, _, _⟩ := Write_spec w [92, 117, a, b, c, d]
  rw [h1, h2, hq, streamOut_unicode _ hu]
  simp [streamOut, streamState, byteNext]

/-- One `Write` of a single byte in `stateQuote`. -/
theorem Write_literal (w : Encoder) (hq : w.state = stateQuote) (c : Nat) :
    written (Write w [c]).1 = written w ++ byteOut stateQuote w.uchar c ∧
    (Write w [c]).1.state = (byteNext stateQuote w.uchar c).1 := by
  obtain ⟨h1, h2, _, _⟩ := Write_spec w [c]
  rw [h1, h2, hq]
  simp [streamOut, streamState]

/-- C3: unicode-escape equivalence. In `stateQuote` each of the six-byte escapes
backslash-`u003c`, backslash-`u003e`, backslash-`u0026`, backslash-`u0027` (hex letters in
either case) writes exactly the entity that the literal byte `'<'`, `'>'`, `'&'`, `'\''`
writes (`&lt;`, `&gt;`, `&amp;`, `&#x27;`), and leaves the mode `stateQuote`; and
backslash-`u0022` writes exactly `&quot;`, as the two-byte escaped quote does. -/
theorem unicode_escape_equivalence (w : Encoder) (hq : w.state = stateQuote)
    (hu : w.uchar.length = 6) :
    (∀ f ∈ unicodeForms,
      written (Write w (92 :: 117 :: f.1)).1 = written w ++ f.2.2 ∧
      (Write w (92 :: 117 :: f.1)).1.state = stateQuote ∧
      written (Write w [f.2.1]).1 = written w ++ f.2.2 ∧
      (Write w [f.2.1]).1.state = stateQuote) ∧
    written (Write w [92, 117, 48, 48, 50, 50]).1 = written w ++ escapedDoubleQuote ∧
    (Write w [92, 117, 48, 48, 50, 50]).1.state = stateQuote ∧
    written (Write w [92, 34]).1 = written w ++ escapedDoubleQuote ∧
    (Write w [92, 34]).1.state = stateQuote := by
  refine ⟨?_, ?_, (Write_unicode w hq hu 48 48 50 50).2, ?_, ?_⟩
  · intro f hf
    simp only [unicodeForms, List.mem_cons, List.mem_singleton, List.not_mem_nil, or_false]
      at hf
    rcases hf with rfl | rfl | rfl | rfl | rfl | rfl <;>
      refine ⟨?_, (Write_unicode w hq hu _ _ _ _).2, ?_, ?_⟩ <;>
      first
        | (rw [(Write_unicode w hq hu _ _ _ _).1, unicodeOut_six]; rfl)
        | (rw [(Write_literal w hq _).1]; rfl)
        | (rw [(Write_literal w hq _).2]; rfl)
  · rw [(Write_unicode w hq hu _ _ _ _).1, unicodeOut_six]; rfl
  · rw [(Write_spec w [92, 34]).1, hq, streamOut_quote]; simp [streamOut]
  · rw [(Write_spec w [92, 34]).2.1, hq]; rfl

/-- C3, at an encoder that has just read an opening quote. -/
theorem unicode_escape_equivalence_witness :
    (Write (NewEncoder []) [34]).1.state = stateQuote ∧
    (Write (NewEncoder []) [34]).1.uchar.length = 6 ∧
    ((∀ f ∈ unicodeForms,
      written (Write (Write (NewEncoder []) [34]).1 (92 :: 117 :: f.1)).1 =
        written (Write (NewEncoder []) [34]).1 ++ f.2.2 ∧
      (Write (Write (NewEncoder []) [34]).1 (92 :: 117 :: f.1)).1.state = stateQuote ∧
      written (Write (Write (NewEncoder []) [34]).1 [f.2.1]).1 =
        written (Write (NewEncoder []) [34]).1 ++ f.2.2 ∧
      (Write (Write (NewEncoder []) [34]).1 [f.2.1]).1.state = stateQuote) ∧
    written (Write (Write (NewEncoder []) [34]).1 [92, 117, 48, 48, 50, 50]).1 =
      written (Write (NewEncoder []) [34]).1 ++ escapedDoubleQuote ∧
    (Write (Write (NewEncoder []) [34]).1 [92, 117, 48, 48, 50, 50]).1.state = stateQuote ∧
    written (Write (Write (NewEncoder []) [34]).1 [92, 34]).1 =
      written (Write (NewEncoder []) [34]).1 ++ escapedDoubleQuote ∧
    (Write (Write (NewEncoder []) [34]).1 [92, 34]).1.state = stateQuote) :=
  ⟨by decide, by decide, unicode_escape_equivalence _ (by decide) (by decide)⟩

/-- C4: escaped quote. In `stateQuote` a backslash followed by `'"'`, in one chunk or
split across two, writes exactly the six bytes `&quot;` for the pair (nothing is written
for the backslash alone) and leaves the mode `stateQuote`; the string is not ended, and
a following `'<'`, `'>'`, `'&'` or `'\''` is still replaced by its entity. -/
theorem escaped_quote (w : Encoder) (hq : w.state = stateQuote) :
    (written (Write w [92, 34]).1 = written w ++ escapedDoubleQuote ∧
      (Write w [92, 34]).1.state = stateQuote) ∧
    (written (Write w [92]).1 = written w ∧
      written (Write (Write w [92]).1 [34]).1 = written w ++ escapedDoubleQuote ∧
      (Write (Write w [92]).1 [34]).1.state = stateQuote) ∧
    escapedDoubleQuote.length = 6 ∧
    (written (Write w [92, 34, 60]).1 = written w ++ escapedDoubleQuote ++ escapedLT ∧
      written (Write w [92, 34, 62]).1 = written w ++ escapedDoubleQuote ++ escapedGT ∧
      written (Write w [92, 34, 38]).1 = written w ++ escapedDoubleQuote ++ escapedAmp ∧
      written (Write w [92, 34, 39]).1 =
        written w ++ escapedDoubleQuote ++ escapedSingleQuote) := by
  have h1 := Write_spec w [92]
  have h2 := Write_spec (Write w [92]).1 [34]
  rw [h1.2.1, hq] at h2
  refine ⟨⟨?_, ?_⟩, ⟨?_, ?_, ?_⟩, rfl, ?_, ?_, ?_, ?_⟩
  · rw [(Write_spec w [92, 34]).1, hq, streamOut_quote]; simp [streamOut]
  · rw [(Write_spec w [92, 34]).2.1, hq]; rfl
  · rw [h1.1, hq]; simp [streamOut, byteOut]
  · rw [h2.1, h1.1, hq]; simp [streamOut, streamState, byteOut, byteNext]
  · rw [h2.2.1]; rfl
  · rw [(Write_spec w [92, 34, 60]).1, hq, streamOut_quote]
    simp [streamOut, byteOut]
  · rw [(Write_spec w [92, 34, 62]).1, hq, streamOut_quote]
    simp [streamOut, byteOut]
  · rw [(Write_spec w [92, 34, 38]).1, hq, streamOut_quote]
    simp [streamOut, byteOut]
  · rw [(Write_spec w [92, 34, 39]).1, hq, streamOut_quote]
    simp [streamOut, byteOut]

/-- C4, at an encoder that has just read an opening quote. -/
theorem escaped_quote_witness :
    (Write (NewEncoder []) [34]).1.state = stateQuote ∧
    ((written (Write (Write (NewEncoder []) [34]).1 [92, 34]).1 =
        written (Write (NewEncoder []) [34]).1 ++ escapedDoubleQuote ∧
      (Write (Write (NewEncoder []) [34]).1 [92, 34]).1.state = stateQuote) ∧
    (written (Write (Write (NewEncoder []) [34]).1 [92]).1 =
        written (Write (NewEncoder []) [34]).1 ∧
      written (Write (Write (Write (NewEncoder []) [34]).1 [92]).1 [34]).1 =
        written (Write (NewEncoder []) [34]).1 ++ escapedDoubleQuote ∧
      (Write (Write (Write (NewEncoder []) [34]).1 [92]).1 [34]).1.state = stateQuote) ∧
    escapedDoubleQuote.length = 6 ∧
    (written (Write (Write (NewEncoder []) [34]).1 [92, 34, 60]).1 =
        written (Write (NewEncoder []) [34]).1 ++ escapedDoubleQuote ++ escapedLT ∧
      written (Write (Write (NewEncoder []) [34]).1 [92, 34, 62]).1 =
        written (Write (NewEncoder []) [34]).1 ++ escapedDoubleQuote ++ escapedGT ∧
      written (Write (Write (NewEncoder []) [34]).1 [92, 34, 38]).1 =
        written (Write (NewEncoder []) [34]).1 ++ escapedDoubleQuote ++ escapedAmp ∧
      written (Write (Write (NewEncoder []) [34]).1 [92, 34, 39]).1 =
        written (Write (NewEncoder []) [34]).1 ++ escapedDoubleQuote ++
          escapedSingleQuote)) :=
  ⟨by decide, escaped_quote _ (by decide)⟩

/-- C5: non-target escapes pass through. In `stateQuote`, for every byte `c` other than
`'"'` and `'u'`, a backslash followed by `c` writes exactly the two bytes backslash, `c`
and returns to `stateQuote`, whatever `c` is. In particular an escaped backslash consumes
both backslashes, so that a `'"'` directly after it closes the string. -/
theorem non_target_escape (w : Encoder) (hq : w.state = stateQuote)
    (hu : w.uchar.length = 6) (c : Nat) (h34 : c ≠ 34) (h117 : c ≠ 117) :
    written (Write w [92, c]).1 = written w ++ [92, c] ∧
    (Write w [92, c]).1.state = stateQuote ∧
    written (Write w [92, 92, 34]).1 = written w ++ [92, 92, 34] ∧
    (Write w [92, 92, 34]).1.state = stateTop := by
  refine ⟨?_, ?_, ?_, ?_⟩
  · rw [(Write_spec w [92, c]).1, hq, streamOut_simple _ hu c h34 h117]
    simp [streamOut]
  · rw [(Write_spec w [92, c]).2.1, hq]
    simp [streamState, byteNext, h34, h117]
  · rw [(Write_spec w [92, 92, 34]).1, hq, streamOut_simple _ hu 92 (by decide) (by decide)]
    simp [streamOut, byteOut]
  · rw [(Write_spec w [92, 92, 34]).2.1, hq]
    rfl

/-- C5, at an encoder that has just read an opening quote and at the escape
backslash, `'<'`: the pair is written as it is, the `'<'` is not replaced. -/
theorem non_target_escape_witness :
    (Write (NewEncoder []) [34]).1.state = stateQuote ∧
    (Write (NewEncoder []) [34]).1.uchar.length = 6 ∧ 60 ≠ 34 ∧ 60 ≠ 117 ∧
    (written (Write (Write (NewEncoder []) [34]).1 [92, 60]).1 =
        written (Write (NewEncoder []) [34]).1 ++ [92, 60] ∧
      (Write (Write (NewEncoder []) [34]).1 [92, 60]).1.state = stateQuote ∧
      written (Write (Write (NewEncoder []) [34]).1 [92, 92, 34]).1 =
        written (Write (NewEncoder []) [34]).1 ++ [92, 92, 34] ∧
      (Write (Write (NewEncoder []) [34]).1 [92, 92, 34]).1.state = stateTop) :=
  ⟨by decide, by decide, by decide, by decide,
    non_target_escape _ (by decide) (by decide) 60 (by decide) (by decide)⟩

/-- C6: non-matching and malformed `\u` escapes are written as they are. In `stateQuote`,
for any four bytes `b1 b2 b3 b4` after a backslash and `'u'`: if they are not all
hexadecimal digits, or their hexadecimal value exceeds `0xFF`, or it is none of `0x22`,
`0x26`, `0x27`, `0x3C`, `0x3E`, then exactly the six bytes backslash, `'u'`, `b1`, `b2`,
`b3`, `b4` are written and the mode returns to `stateQuote`. -/
theorem unicode_escape_verbatim (w : Encoder) (hq : w.state = stateQuote)
    (hu : w.uchar.length = 6) (b1 b2 b3 b4 : Nat)
    (h : ¬ (isHexDigit b1 = true ∧ isHexDigit b2 = true ∧ isHexDigit b3 = true ∧
            isHexDigit b4 = true) ∨
         255 < hexValue [b1, b2, b3, b4] ∨
         (hexValue [b1, b2, b3, b4] ≠ 34 ∧ hexValue [b1, b2, b3, b4] ≠ 38 ∧
          hexValue [b1, b2, b3, b4] ≠ 39 ∧ hexValue [b1, b2, b3, b4] ≠ 60 ∧
          hexValue [b1, b2, b3, b4] ≠ 62)) :
    written (Write w [92, 117, b1, b2, b3, b4]).1 = written w ++ [92, 117, b1, b2, b3, b4] ∧
    (Write w [92, 117, b1, b2, b3, b4]).1.state = stateQuote := by
  refine ⟨?_, (Write_unicode w hq hu _ _ _ _).2⟩
  rw [(Write_unicode w hq hu _ _ _ _).1, unicodeOut_six]
  by_cases hx : isHexDigit b1 = true ∧ isHexDigit b2 = true ∧ isHexDigit b3 = true ∧
      isHexDigit b4 = true
  · rw [if_pos hx]
    have hv : hexValue [b1, b2, b3, b4] ≠ 34 ∧ hexValue [b1, b2, b3, b4] ≠ 38 ∧
        hexValue [b1, b2, b3, b4] ≠ 39 ∧ hexValue [b1, b2, b3, b4] ≠ 60 ∧
        hexValue [b1, b2, b3, b4] ≠ 62 := by
      rcases h with h | h | h
      · exact absurd hx h
      · refine ⟨?_, ?_, ?_, ?_, ?_⟩ <;> omega
      · exact h
    simp [targetEntity, hv.1, hv.2.1, hv.2.2.1, hv.2.2.2.1, hv.2.2.2.2]
  · rw [if_neg hx]

/-- C6, at the escape backslash-`u2318` (the value `0x2318` exceeds `0xFF`). -/
theorem unicode_escape_verbatim_witness :
    (Write (NewEncoder []) [34]).1.state = stateQuote ∧
    (Write (NewEncoder []) [34]).1.uchar.length = 6 ∧
    255 < hexValue [50, 51, 49, 56] ∧
    written (Write (Write (NewEncoder []) [34]).1 [92, 117, 50, 51, 49, 56]).1 =
      written (Write (NewEncoder []) [34]).1 ++ [92, 117, 50, 51, 49, 56] ∧
    (Write (Write (NewEncoder []) [34]).1 [92, 117, 50, 51, 49, 56]).1.state = stateQuote :=
  ⟨by decide, by decide, by decide,
    unicode_escape_verbatim _ (by decide) (by decide) 50 51 49 56 (Or.inr (Or.inl (by decide)))⟩

/-- C7 as stated fails: the four digits `013c` have the value `0x013C`, whose low byte is
`'<'`, yet after an opening quote the escape backslash-`u013c` is written as its six
bytes, not as `&lt;`. -/
theorem low_byte_decoding_counterexample :
    (isHexDigit 48 = true ∧ isHexDigit 49 = true ∧ isHexDigit 51 = true ∧
      isHexDigit 99 = true) ∧
    hexValue [48, 49, 51, 99] = 316 ∧
    targetEntity (hexValue [48, 49, 51, 99] % 256) = some escapedLT ∧
    written (Write (NewEncoder []) [34, 92, 117, 48, 49, 51, 99]).1 =
      [34, 92, 117, 48, 49, 51, 99] ∧
    written (Write (NewEncoder []) [34, 92, 117, 48, 49, 51, 99]).1 ≠ 34 :: escapedLT := by
  decide

/-- C7, amended: at the end of a `\u` escape with four hexadecimal digits the whole
decoded value is compared with the five target characters. The entity is written exactly
when the value itself is `'"'`, `'&'`, `'<'`, `'>'` or `'\''`; otherwise, and so for
every value above `0xFF` whatever its low byte, the original six bytes are written. -/
theorem unicode_decoding_whole_value (w : Encoder) (hq : w.state = stateQuote)
    (hu : w.uchar.length = 6) (b1 b2 b3 b4 : Nat)
    (hx : isHexDigit b1 = true ∧ isHexDigit b2 = true ∧ isHexDigit b3 = true ∧
      isHexDigit b4 = true) :
    written (Write w [92, 117, b1, b2, b3, b4]).1 =
      written w ++
        (targetEntity (hexValue [b1, b2, b3, b4])).getD [92, 117, b1, b2, b3, b4] ∧
    (Write w [92, 117, b1, b2, b3, b4]).1.state = stateQuote ∧
    (255 < hexValue [b1, b2, b3, b4] →
      written (Write w [92, 117, b1, b2, b3, b4]).1 =
        written w ++ [92, 117, b1, b2, b3, b4]) := by
  have hw : written (Write w [92, 117, b1, b2, b3, b4]).1 =
      written w ++
        (targetEntity (hexValue [b1, b2, b3, b4])).getD [92, 117, b1, b2, b3, b4] := by
    rw [(Write_unicode w hq hu _ _ _ _).1, unicodeOut_six, if_pos hx]
  refine ⟨hw, (Write_unicode w hq hu _ _ _ _).2, ?_⟩
  intro hv
  rw [hw]
  have h1 : ¬ hexValue [b1, b2, b3, b4] = 34 := by omega
  have h2 : ¬ hexValue [b1, b2, b3, b4] = 38 := by omega
  have h3 : ¬ hexValue [b1, b2, b3, b4] = 60 := by omega
  have h4 : ¬ hexValue [b1, b2, b3, b4] = 62 := by omega
  have h5 : ¬ hexValue [b1, b2, b3, b4] = 39 := by omega
  simp [targetEntity, h1, h2, h3, h4, h5]

/-- C7 amended, at the escape backslash-`u003C` after an opening quote. -/
theorem unicode_decoding_whole_value_witness :
    (Write (NewEncoder []) [34]).1.state = stateQuote ∧
    (Write (NewEncoder []) [34]).1.uchar.length = 6 ∧
    (isHexDigit 48 = true ∧ isHexDigit 48 = true ∧ isHexDigit 51 = true ∧
      isHexDigit 67 = true) ∧
    (written (Write (Write (NewEncoder []) [34]).1 [92, 117, 48, 48, 51, 67]).1 =
      written (Write (NewEncoder []) [34]).1 ++
        (targetEntity (hexValue [48, 48, 51, 67])).getD [92, 117, 48, 48, 51, 67] ∧
    (Write (Write (NewEncoder []) [34]).1 [92, 117, 48, 48, 51, 67]).1.state = stateQuote ∧
    (255 < hexValue [48, 48, 51, 67] →
      written (Write (Write (NewEncoder []) [34]).1 [92, 117, 48, 48, 51, 67]).1 =
        written (Write (NewEncoder []) [34]).1 ++ [92, 117, 48, 48, 51, 67])) :=
  ⟨by decide, by decide, by decide,
    unicode_decoding_whole_value _ (by decide) (by decide) 48 48 51 67 (by decide)⟩

/-! ## Outside string literals -/

theorem stream_top (s : List Nat) (u : List Nat) (h : 34 ∉ s) :
    streamOut stateTop u s = s ∧ streamState stateTop u s = (stateTop, u) := by
  induction s with
  | nil => exact ⟨rfl, rfl⟩
  | cons c s ih =>
    have hc : c ≠ 34 := fun e => h (by simp [e])
    have hs : 34 ∉ s := fun e => h (by simp [e])
    obtain ⟨h1, h2⟩ := ih hs
    simp [streamOut, streamState, byteOut, byteNext, hc, h1, h2]

/-- C8: nothing outside a string is substituted. For every input without a `'"'` byte a
fresh encoder writes the input exactly, whatever else it contains (`'<'`, `'>'`, `'&'`,
`'\''`, backslashes), and stays in `stateTop`. -/
theorem outside_strings_identity (s : List Nat) (h : 34 ∉ s) :
    written (Write (NewEncoder []) s).1 = s ∧ (Write (NewEncoder []) s).1.state = stateTop := by
  obtain ⟨h1, h2, _, _⟩ := Write_spec (NewEncoder []) s
  obtain ⟨k1, k2⟩ := stream_top s (NewEncoder []).uchar h
  have hst : (NewEncoder []).state = stateTop := rfl
  rw [hst] at h1 h2
  rw [h1, h2, k1, k2]
  exact ⟨rfl, rfl⟩

/-- C8, at the input `<a href='x'>&\n`, which holds all of `'<'`, `'>'`, `'&'`, `'\''`
and a backslash. -/
theorem outside_strings_identity_witness :
    34 ∉ [60, 97, 32, 104, 114, 101, 102, 61, 39, 120, 39, 62, 38, 92, 110] ∧
    written (Write (NewEncoder [])
        [60, 97, 32, 104, 114, 101, 102, 61, 39, 120, 39, 62, 38, 92, 110]).1 =
      [60, 97, 32, 104, 114, 101, 102, 61, 39, 120, 39, 62, 38, 92, 110] ∧
    (Write (NewEncoder [])
        [60, 97, 32, 104, 114, 101, 102, 61, 39, 120, 39, 62, 38, 92, 110]).1.state =
      stateTop :=
  ⟨by decide, outside_strings_identity _ (by decide)⟩

/-! ## Well-formed string literals -/

theorem wfBody_raw (c : Nat) (rest : List Nat) (h1 : c ≠ 34) (h2 : c ≠ 92) :
    wfBody (c :: rest) = wfBody rest := by
  rw [wfBody.eq_def]; simp [h1, h2]

theorem wfBody_simple (e : Nat) (rest : List Nat) (h : e ≠ 117) :
    wfBody (92 :: e :: rest) = (isSimpleEscape e && wfBody rest) := by
  rw [wfBody.eq_def]; simp [h]

theorem wfBody_unicode (a b c d : Nat) (rest : List Nat) :
    wfBody (92 :: 117 :: a :: b :: c :: d :: rest) =
      (isHexDigit a && isHexDigit b && isHexDigit c && isHexDigit d && wfBody rest) := by
  rw [wfBody.eq_def]; simp

/-- The shapes of a well-formed body: empty, or a raw byte, a two-byte escape or a `\u`
escape followed by a well-formed body. -/
theorem wfBody_cases (l : List Nat) (h : wfBody l = true) :
    l = [] ∨
    (∃ c rest, l = c :: rest ∧ c ≠ 34 ∧ c ≠ 92 ∧ wfBody rest = true) ∨
    (∃ e rest, l = 92 :: e :: rest ∧ e ≠ 117 ∧ isSimpleEscape e = true ∧
      wfBody rest = true) ∨
    (∃ a b c d rest, l = 92 :: 117 :: a :: b :: c :: d :: rest ∧
      (isHexDigit a = true ∧ isHexDigit b = true ∧ isHexDigit c = true ∧
        isHexDigit d = true) ∧ wfBody rest = true) := by
  match l with
  | [] => exact Or.inl rfl
  | c :: rest =>
    by_cases h34 : c = 34
    · subst h34; rw [wfBody.eq_def] at h; simp at h
    by_cases h92 : c = 92
    · subst h92
      match rest with
      | [] => rw [wfBody.eq_def] at h; simp at h
      | e :: rest2 =>
        by_cases h117 : e = 117
        · subst h117
          match rest2 with
          | a :: b :: c :: d :: rest3 =>
            rw [wfBody_unicode] at h
            simp only [Bool.and_eq_true] at h
            exact Or.inr (Or.inr (Or.inr ⟨a, b, c, d, rest3, rfl,
              ⟨h.1.1.1.1, h.1.1.1.2, h.1.1.2, h.1.2⟩, h.2⟩))
          | [] => rw [wfBody.eq_def] at h; simp at h
          | [_] => rw [wfBody.eq_def] at h; simp at h
          | [_, _] => rw [wfBody.eq_def] at h; simp at h
          | [_, _, _] => rw [wfBody.eq_def] at h; simp at h
        · rw [wfBody_simple e rest2 h117] at h
          simp only [Bool.and_eq_true] at h
          exact Or.inr (Or.inr (Or.inl ⟨e, rest2, rfl, h117, h.1, h.2⟩))
    · rw [wfBody_raw c rest h34 h92] at h
      exact Or.inr (Or.inl ⟨c, rest, rfl, h34, h92, h⟩)

theorem HTMLSafe_nil : HTMLSafe [] := by
  refine ⟨by simp, by simp, by simp, by simp, ?_⟩
  intro pre post h
  cases pre <;> simp at h

theorem HTMLSafe_append (a b : List Nat) (ha : HTMLSafe a) (hb : HTMLSafe b) :
    HTMLSafe (a ++ b) := by
  obtain ⟨a1, a2, a3, a4, a5⟩ := ha
  obtain ⟨b1, b2, b3, b4, b5⟩ := hb
  refine ⟨by simp [a1, b1], by simp [a2, b2], by simp [a3, b3], by simp [a4, b4], ?_⟩
  intro pre post h
  rcases List.append_eq_append_iff.mp h with ⟨m, hm, hb'⟩ | ⟨m, hm, ha'⟩
  · exact b5 m post hb'
  · cases m with
    | nil =>
      simp only [List.nil_append] at ha'
      exact b5 [] post (by simpa using ha'.symm)
    | cons x m =>
      simp only [List.cons_append, List.cons.injEq] at ha'
      obtain ⟨hx, hpost⟩ := ha'
      subst hx
      obtain ⟨e, he, hpre⟩ := a5 pre m hm
      refine ⟨e, he, ?_⟩
      rw [hpost]
      exact hpre.trans (List.prefix_append (38 :: m) b)

/-- A text without any of the five target bytes is safe. -/
theorem HTMLSafe_of_no_target (t : List Nat) (h : ∀ c ∈ t, c ≠ 60 ∧ c ≠ 62 ∧ c ≠ 39 ∧
    c ≠ 34 ∧ c ≠ 38) : HTMLSafe t := by
  refine ⟨fun m => (h _ m).1 rfl, fun m => (h _ m).2.1 rfl, fun m => (h _ m).2.2.1 rfl,
    fun m => (h _ m).2.2.2.1 rfl, ?_⟩
  intro pre post ht
  exact absurd rfl (h 38 (by simp [ht])).2.2.2.2

/-- An entity is safe, may stand anywhere in a well-formed body, and has no control
byte. -/
theorem entity_good (e : List Nat) (he : e ∈ entities) :
    HTMLSafe e ∧ (∀ r, wfBody (e ++ r) = wfBody r) ∧ ∀ b ∈ e, 32 ≤ b := by
  have key : ∀ tl : List Nat, (∀ c ∈ tl, c ≠ 60 ∧ c ≠ 62 ∧ c ≠ 39 ∧ c ≠ 34 ∧ c ≠ 38) →
      38 :: tl ∈ entities → HTMLSafe (38 :: tl) := by
    intro tl htl hmem
    refine ⟨?_, ?_, ?_, ?_, ?_⟩
    · intro m
      rcases List.mem_cons.mp m with h | h
      · exact absurd h (by decide)
      · exact (htl _ h).1 rfl
    · intro m
      rcases List.mem_cons.mp m with h | h
      · exact absurd h (by decide)
      · exact (htl _ h).2.1 rfl
    · intro m
      rcases List.mem_cons.mp m with h | h
      · exact absurd h (by decide)
      · exact (htl _ h).2.2.1 rfl
    · intro m
      rcases List.mem_cons.mp m with h | h
      · exact absurd h (by decide)
      · exact (htl _ h).2.2.2.1 rfl
    · intro pre post h
      cases pre with
      | nil =>
        simp only [List.nil_append, List.cons.injEq, true_and] at h
        exact ⟨38 :: tl, hmem, by rw [h]⟩
      | cons x pre =>
        simp only [List.cons_append, List.cons.injEq] at h
        exact absurd rfl (htl 38 (by simp [h.2])).2.2.2.2
  simp only [entities, List.mem_cons, List.mem_singleton, List.not_mem_nil, or_false] at he
  rcases he with rfl | rfl | rfl | rfl | rfl
  · exact ⟨key _ (by decide) (by decide), fun r => by simp [escapedAmp, wfBody_raw],
      by decide⟩
  · exact ⟨key _ (by decide) (by decide), fun r => by simp [escapedLT, wfBody_raw],
      by decide⟩
  · exact ⟨key _ (by decide) (by decide), fun r => by simp [escapedGT, wfBody_raw],
      by decide⟩
  · exact ⟨key _ (by decide) (by decide),
      fun r => by simp [escapedSingleQuote, wfBody_raw], by decide⟩
  · exact ⟨key _ (by decide) (by decide),
      fun r => by simp [escapedDoubleQuote, wfBody_raw], by decide⟩

theorem hex_not_target (c : Nat) (h : isHexDigit c = true) :
    (c ≠ 60 ∧ c ≠ 62 ∧ c ≠ 39 ∧ c ≠ 34 ∧ c ≠ 38) ∧ c ≠ 92 ∧ 32 ≤ c := by
  simp only [isHexDigit, Bool.or_eq_true, Bool.and_eq_true, decide_eq_true_eq] at h
  omega

theorem simple_escape_cases (e : Nat) (h : isSimpleEscape e = true) :
    e = 34 ∨ e = 92 ∨ e = 47 ∨ e = 98 ∨ e = 102 ∨ e = 110 ∨ e = 114 ∨ e = 116 := by
  simpa [isSimpleEscape, or_assoc] using h

/-- What a raw byte of a string body turns into. -/
theorem raw_good (c : Nat) :
    HTMLSafe (entityOf c) ∨ c = 34 := by
  unfold entityOf
  split_ifs with h1 h2 h3 h4
  · exact Or.inl (entity_good _ (by simp [entities])).1
  · exact Or.inl (entity_good _ (by simp [entities])).1
  · exact Or.inl (entity_good _ (by simp [entities])).1
  · exact Or.inl (entity_good _ (by simp [entities])).1
  · by_cases h5 : c = 34
    · exact Or.inr h5
    · refine Or.inl (HTMLSafe_of_no_target _ ?_)
      intro x hx
      rw [List.mem_singleton] at hx
      subst hx
      exact ⟨h2, h3, h4, h5, h1⟩

theorem raw_wf (c : Nat) (h34 : c ≠ 34) (h92 : c ≠ 92) (r : List Nat) :
    wfBody (entityOf c ++ r) = wfBody r := by
  unfold entityOf
  split_ifs
  · exact (entity_good _ (by simp [entities])).2.1 r
  · exact (entity_good _ (by simp [entities])).2.1 r
  · exact (entity_good _ (by simp [entities])).2.1 r
  · exact (entity_good _ (by simp [entities])).2.1 r
  · exact wfBody_raw c r h34 h92

theorem raw_printable (c : Nat) (h : 32 ≤ c) : ∀ b ∈ entityOf c, 32 ≤ b := by
  unfold entityOf
  split_ifs
  · exact (entity_good _ (by simp [entities])).2.2
  · exact (entity_good _ (by simp [entities])).2.2
  · exact (entity_good _ (by simp [entities])).2.2
  · exact (entity_good _ (by simp [entities])).2.2
  · intro b hb
    rw [List.mem_singleton] at hb
    omega

/-- What a complete `\u` escape with four hexadecimal digits turns into. -/
theorem unicode_good (a b c d : Nat)
    (hx : isHexDigit a = true ∧ isHexDigit b = true ∧ isHexDigit c = true ∧
      isHexDigit d = true) :
    HTMLSafe (unicodeOut [92, 117, a, b, c, d]) ∧
    (∀ r, wfBody (unicodeOut [92, 117, a, b, c, d] ++ r) = wfBody r) ∧
    ∀ x ∈ unicodeOut [92, 117, a, b, c, d], 32 ≤ x := by
  rw [unicodeOut_six, if_pos hx]
  have ha := hex_not_target a hx.1
  have hb := hex_not_target b hx.2.1
  have hc := hex_not_target c hx.2.2.1
  have hd := hex_not_target d hx.2.2.2
  have six : HTMLSafe [92, 117, a, b, c, d] ∧
      (∀ r, wfBody ([92, 117, a, b, c, d] ++ r) = wfBody r) ∧
      ∀ x ∈ [92, 117, a, b, c, d], 32 ≤ x := by
    refine ⟨HTMLSafe_of_no_target _ ?_, ?_, ?_⟩
    · intro x hm
      simp only [List.mem_cons, List.mem_singleton, List.not_mem_nil, or_false] at hm
      rcases hm with rfl | rfl | rfl | rfl | rfl | rfl
      · decide
      · decide
      · exact ha.1
      · exact hb.1
      · exact hc.1
      · exact hd.1
    · intro r
      simp [wfBody_unicode, hx.1, hx.2.1, hx.2.2.1, hx.2.2.2]
    · intro x hm
      simp only [List.mem_cons, List.mem_singleton, List.not_mem_nil, or_false] at hm
      rcases hm with rfl | rfl | rfl | rfl | rfl | rfl
      · decide
      · decide
      · exact ha.2.2
      · exact hb.2.2
      · exact hc.2.2
      · exact hd.2.2
  unfold targetEntity
  split_ifs
  · exact entity_good _ (by simp [entities])
  · exact entity_good _ (by simp [entities])
  · exact entity_good _ (by simp [entities])
  · exact entity_good _ (by simp [entities])
  · exact entity_good _ (by simp [entities])
  · exact six

/-- What a two-byte escape other than `\"` turns into. -/
theorem simple_good (e : Nat) (hs : isSimpleEscape e = true) (h34 : e ≠ 34) :
    HTMLSafe [92, e] ∧ (∀ r, wfBody ([92, e] ++ r) = wfBody r) ∧ ∀ x ∈ [92, e], 32 ≤ x := by
  have h117 : e ≠ 117 := by
    rcases simple_escape_cases e hs with h | h | h | h | h | h | h | h <;> omega
  refine ⟨HTMLSafe_of_no_target _ ?_, ?_, ?_⟩
  · intro x hm
    simp only [List.mem_cons, List.mem_singleton, List.not_mem_nil, or_false] at hm
    rcases hm with rfl | rfl
    · decide
    · rcases simple_escape_cases x hs with h | h | h | h | h | h | h | h <;> omega
  · intro r
    simp [wfBody_simple e r h117, hs]
  · intro x hm
    simp only [List.mem_cons, List.mem_singleton, List.not_mem_nil, or_false] at hm
    rcases hm with rfl | rfl
    · decide
    · rcases simple_escape_cases x hs with h | h | h | h | h | h | h | h <;> omega

theorem streamState_unicode (u : List Nat) (hu : u.length = 6) (a b c d : Nat)
    (rest : List Nat) :
    streamState stateQuote u (92 :: 117 :: a :: b :: c :: d :: rest) =
      streamState stateQuote [92, 117, a, b, c, d] rest := by
  obtain ⟨u0, u1, u2, u3, u4, u5, rfl⟩ := length_six u hu
  simp [streamState, byteNext]

theorem streamState_simple (u : List Nat) (c : Nat) (h34 : c ≠ 34) (h117 : c ≠ 117)
    (rest : List Nat) :
    streamState stateQuote u (92 :: c :: rest) =
      streamState stateQuote ((u.set 0 92).set 1 c) rest := by
  simp [streamState, byteNext, h34, h117]

theorem streamState_quote (u : List Nat) (rest : List Nat) :
    streamState stateQuote u (92 :: 34 :: rest) = streamState stateQuote u rest := by
  simp [streamState, byteNext]

/-- A well-formed string body read in `stateQuote`: the scanner is back in `stateQuote` at
its end, and what it has written is safe inside HTML, is again a well-formed body, and has
no control byte unless the body had one. -/
theorem body_out (n : Nat) :
    ∀ body : List Nat, body.length ≤ n → wfBody body = true →
      ∀ u : List Nat, u.length = 6 →
        (streamState stateQuote u body).1 = stateQuote ∧
        HTMLSafe (streamOut stateQuote u body) ∧
        wfBody (streamOut stateQuote u body) = true ∧
        ((∀ b ∈ body, 32 ≤ b) → ∀ b ∈ streamOut stateQuote u body, 32 ≤ b) := by
  induction n with
  | zero =>
    intro body hlen _ u _
    have : body = [] := List.length_eq_zero.mp (Nat.le_zero.mp hlen)
    subst this
    exact ⟨rfl, HTMLSafe_nil, rfl, fun _ b hb => by simp [streamOut] at hb⟩
  | succ n ih =>
    intro body hlen hwf u hu
    rcases wfBody_cases body hwf with rfl | ⟨c, rest, rfl, h34, h92, hr⟩ |
      ⟨e, rest, rfl, h117, hs, hr⟩ | ⟨a, b, c, d, rest, rfl, hx, hr⟩
    · exact ⟨rfl, HTMLSafe_nil, rfl, fun _ b hb => by simp [streamOut] at hb⟩
    · obtain ⟨i1, i2, i3, i4⟩ := ih rest (by simp at hlen; omega) hr u hu
      have ho : streamOut stateQuote u (c :: rest) =
          entityOf c ++ streamOut stateQuote u rest := by
        simp [streamOut, byteOut, byteNext, h34, h92, entityOf]
      have hst : streamState stateQuote u (c :: rest) = streamState stateQuote u rest := by
        simp [streamState, byteNext, h34, h92]
      rw [ho, hst, raw_wf c h34 h92]
      refine ⟨i1, HTMLSafe_append _ _ ((raw_good c).resolve_right h34) i2, i3, ?_⟩
      intro hb x hm
      rcases List.mem_append.mp hm with hm | hm
      · exact raw_printable c (hb c (by simp)) x hm
      · exact i4 (fun y hy => hb y (by simp [hy])) x hm
    · by_cases h34 : e = 34
      · subst h34
        obtain ⟨i1, i2, i3, i4⟩ := ih rest (by simp at hlen; omega) hr u hu
        have hg := entity_good escapedDoubleQuote (by simp [entities])
        rw [streamOut_quote, streamState_quote, hg.2.1]
        refine ⟨i1, HTMLSafe_append _ _ hg.1 i2, i3, ?_⟩
        intro hb x hm
        rcases List.mem_append.mp hm with hm | hm
        · exact hg.2.2 x hm
        · exact i4 (fun y hy => hb y (by simp [hy])) x hm
      · obtain ⟨i1, i2, i3, i4⟩ := ih rest (by simp at hlen; omega) hr
          ((u.set 0 92).set 1 e) (by simp [hu])
        have hg := simple_good e hs h34
        rw [streamOut_simple u hu e h34 h117, streamState_simple u e h34 h117, hg.2.1]
        refine ⟨i1, HTMLSafe_append _ _ hg.1 i2, i3, ?_⟩
        intro hb x hm
        rcases List.mem_append.mp hm with hm | hm
        · exact hg.2.2 x hm
        · exact i4 (fun y hy => hb y (by simp [hy])) x hm
    · obtain ⟨i1, i2, i3, i4⟩ := ih rest (by simp at hlen; omega) hr
        [92, 117, a, b, c, d] rfl
      have hg := unicode_good a b c d hx
      rw [streamOut_unicode u hu, streamState_unicode u hu, hg.2.1]
      refine ⟨i1, HTMLSafe_append _ _ hg.1 i2, i3, ?_⟩
      intro hb x hm
      rcases List.mem_append.mp hm with hm | hm
      · exact hg.2.2 x hm
      · exact i4 (fun y hy => hb y (by simp [hy])) x hm

/-- One `Write` of a quoted well-formed body on a fresh encoder. -/
theorem Write_literal_body (body : List Nat) (h : wfBody body = true) :
    written (Write (NewEncoder []) (34 :: body ++ [34])).1 =
      34 :: streamOut stateQuote (List.replicate 6 0) body ++ [34] ∧
    (Write (NewEncoder []) (34 :: body ++ [34])).1.state = stateTop := by
  obtain ⟨h1, h2, _, _⟩ := Write_spec (NewEncoder []) (34 :: body ++ [34])
  obtain ⟨b1, _, _, _⟩ := body_out body.length body (Nat.le_refl _) h (List.replicate 6 0) rfl
  have hs : (NewEncoder []).state = stateTop := rfl
  have hu : (NewEncoder []).uchar = List.replicate 6 0 := rfl
  have hw : written (NewEncoder []) = [] := rfl
  rw [h1, h2, hs, hu, hw]
  have e1 : streamOut stateTop (List.replicate 6 0) (34 :: body ++ [34]) =
      34 :: streamOut stateQuote (List.replicate 6 0) (body ++ [34]) := by
    simp [streamOut, byteOut, byteNext]
  have e2 : streamState stateTop (List.replicate 6 0) (34 :: body ++ [34]) =
      streamState stateQuote (List.replicate 6 0) (body ++ [34]) := by
    simp [streamState, byteNext]
  have e3 : ∀ st u, st = stateQuote → streamOut st u [34] = [34] ∧
      (streamState st u [34]).1 = stateTop := by
    intro st u hst
    subst hst
    simp [streamOut, streamState, byteOut, byteNext]
  rw [e1, e2, streamOut_append, streamState_append, (e3 _ _ b1).1, (e3 _ _ b1).2]
  simp

/-- C9: HTML safety of well-formed strings. For every input `'"'`, body, `'"'` whose body
is a well-formed JSON string body, a fresh encoder writes `'"'`, body', `'"'` where body'
holds none of the bytes `'<'`, `'>'`, `'\''`, `'"'` and every `'&'` in body' is the first
byte of one of `&amp;`, `&lt;`, `&gt;`, `&#x27;`, `&quot;`. -/
theorem html_safety (body : List Nat) (h : wfBody body = true) :
    ∃ body' : List Nat,
      written (Write (NewEncoder []) (34 :: body ++ [34])).1 = 34 :: body' ++ [34] ∧
      HTMLSafe body' := by
  refine ⟨streamOut stateQuote (List.replicate 6 0) body, (Write_literal_body body h).1, ?_⟩
  exact (body_out body.length body (Nat.le_refl _) h (List.replicate 6 0) rfl).2.1

/-- C9, at the body `a<b`, backslash-`u0026`, backslash-`"`, backslash-`n`, `'&x>`. -/
theorem html_safety_witness :
    wfBody [97, 60, 98, 92, 117, 48, 48, 50, 54, 92, 34, 92, 110, 39, 38, 120, 62] = true ∧
    ∃ body' : List Nat,
      written (Write (NewEncoder [])
          (34 :: [97, 60, 98, 92, 117, 48, 48, 50, 54, 92, 34, 92, 110, 39, 38, 120, 62] ++
            [34])).1 = 34 :: body' ++ [34] ∧
      HTMLSafe body' :=
  ⟨by decide, html_safety _ (by decide)⟩

/-- C10: validity preservation. For every input that is a well-formed JSON string literal
(`'"'`, a body with no raw `'"'`, no byte below `0x20` and only valid escapes, `'"'`), what
a fresh encoder writes is again a well-formed JSON string literal by the same grammar,
and the encoder ends in `stateTop`. -/
theorem validity_preservation (s : List Nat) (h : JSONStringLiteral s) :
    JSONStringLiteral (written (Write (NewEncoder []) s).1) ∧
    (Write (NewEncoder []) s).1.state = stateTop := by
  obtain ⟨body, rfl, hwf, hctl⟩ := h
  obtain ⟨_, _, b3, b4⟩ :=
    body_out body.length body (Nat.le_refl _) hwf (List.replicate 6 0) rfl
  obtain ⟨w1, w2⟩ := Write_literal_body body hwf
  exact ⟨⟨streamOut stateQuote (List.replicate 6 0) body, w1, b3, b4 hctl⟩, w2⟩

/-- C10, at the literal `"a<b`, backslash-`u003e`, backslash-`"`, backslash-`n`,
`'&x"`. -/
theorem validity_preservation_witness :
    JSONStringLiteral
      [34, 97, 60, 98, 92, 117, 48, 48, 51, 101, 92, 34, 92, 110, 39, 38, 120, 34] ∧
    JSONStringLiteral (written (Write (NewEncoder [])
      [34, 97, 60, 98, 92, 117, 48, 48, 51, 101, 92, 34, 92, 110, 39, 38, 120, 34]).1) ∧
    (Write (NewEncoder [])
      [34, 97, 60, 98, 92, 117, 48, 48, 51, 101, 92, 34, 92, 110, 39, 38, 120, 34]).1.state =
        stateTop :=
  ⟨⟨[97, 60, 98, 92, 117, 48, 48, 51, 101, 92, 34, 92, 110, 39, 38, 120], rfl, by decide,
      by decide⟩,
    validity_preservation _
      ⟨[97, 60, 98, 92, 117, 48, 48, 51, 101, 92, 34, 92, 110, 39, 38, 120], rfl, by decide,
        by decide⟩⟩

/-! ## Acceptance, the diagnostic, and the mode transitions -/

/-- C13: full acceptance. For every encoder state and every chunk `s`, the empty chunk
included, `Write(s)` returns the count `len(s)`; an empty chunk makes no sink write and
leaves the encoder (sink, mode and scratch buffer) unchanged. -/
theorem full_acceptance (w : Encoder) (s : List Nat) :
    (Write w s).2.1 = s.length ∧ (Write w []).2.1 = 0 ∧ (Write w []).1 = w := by
  refine ⟨rfl, rfl, ?_⟩
  simp [Write, loop]

theorem ContainsAny_targets (s : List Nat) :
    ContainsAny s [60, 62, 39, 34] = false ↔ 60 ∉ s ∧ 62 ∉ s ∧ 39 ∉ s ∧ 34 ∉ s := by
  induction s with
  | nil => simp [ContainsAny]
  | cons c s ih =>
    simp only [ContainsAny, List.any_cons, Bool.or_eq_false_iff] at ih ⊢
    rw [ih]
    simp only [List.mem_cons, not_or]
    constructor
    · rintro ⟨hc, h1, h2, h3, h4⟩
      simp at hc
      exact ⟨⟨fun e => hc.1 e.symm, h1⟩, ⟨fun e => hc.2.1 e.symm, h2⟩,
        ⟨fun e => hc.2.2.1 e.symm, h3⟩, ⟨fun e => hc.2.2.2 e.symm, h4⟩⟩
    · rintro ⟨⟨c1, h1⟩, ⟨c2, h2⟩, ⟨c3, h3⟩, ⟨c4, h4⟩⟩
      refine ⟨?_, h1, h2, h3, h4⟩
      simp
      exact ⟨fun e => c1 e.symm, fun e => c2 e.symm, fun e => c3 e.symm, fun e => c4 e.symm⟩

/-- C14: `IsHTMLEscaped(s)` is true if and only if `s` holds none of `'<'`, `'>'`, `'\''`,
`'"'`; an `'&'` put into the text or taken out of it never changes the result, and
`IsHTMLEscaped("&")` is true. -/
theorem IsHTMLEscaped_iff (s : List Nat) :
    (IsHTMLEscaped s = true ↔ 60 ∉ s ∧ 62 ∉ s ∧ 39 ∉ s ∧ 34 ∉ s) ∧
    (∀ a b : List Nat, IsHTMLEscaped (a ++ 38 :: b) = IsHTMLEscaped (a ++ b)) ∧
    IsHTMLEscaped [38] = true := by
  have key : ∀ t : List Nat,
      (IsHTMLEscaped t = true ↔ 60 ∉ t ∧ 62 ∉ t ∧ 39 ∉ t ∧ 34 ∉ t) := by
    intro t
    rw [← ContainsAny_targets]
    unfold IsHTMLEscaped
    cases ContainsAny t [60, 62, 39, 34] <;> simp
  refine ⟨key s, ?_, by decide⟩
  intro a b
  have h1 := key (a ++ 38 :: b)
  have h2 := key (a ++ b)
  have h3 : (60 ∉ a ++ 38 :: b ∧ 62 ∉ a ++ 38 :: b ∧ 39 ∉ a ++ 38 :: b ∧ 34 ∉ a ++ 38 :: b) ↔
      (60 ∉ a ++ b ∧ 62 ∉ a ++ b ∧ 39 ∉ a ++ b ∧ 34 ∉ a ++ b) := by
    simp
  cases hx : IsHTMLEscaped (a ++ 38 :: b) <;> cases hy : IsHTMLEscaped (a ++ b) <;>
    simp_all

theorem byteNext_mode (st : State) (u : List Nat) (c : Nat) :
    (byteNext st u c).1 = nextMode st c := by
  cases st <;> simp only [byteNext, nextMode] <;> (try split_ifs) <;> simp_all

theorem streamState_mode (s : List Nat) :
    ∀ (st : State) (u : List Nat), (streamState st u s).1 = s.foldl nextMode st := by
  induction s with
  | nil => intro st u; rfl
  | cons c s ih => intro st u; rw [streamState, ih, byteNext_mode]; rfl

/-- C15: the mode transitions are a pure function of mode and byte. The mode after
`Write(s)` is the left fold of the one function `nextMode` over the bytes of `s` from the
mode before the call, whatever the scratch buffer holds and however the bytes are cut
into chunks. In `stateUnicode1` .. `stateUnicode4` the function advances on every byte,
so that after a backslash and `'u'` exactly the next four bytes are taken into the
escape, whatever they are (a `'"'` included). -/
theorem mode_transitions_pure (w : Encoder) (s : List Nat) :
    (Write w s).1.state = s.foldl nextMode w.state ∧
    (∀ chunks : List (List Nat),
      (WriteAll w chunks).state = chunks.flatten.foldl nextMode w.state) ∧
    (∀ c : Nat, nextMode stateUnicode1 c = stateUnicode2 ∧
      nextMode stateUnicode2 c = stateUnicode3 ∧ nextMode stateUnicode3 c = stateUnicode4 ∧
      nextMode stateUnicode4 c = stateQuote) ∧
    (∀ b1 b2 b3 b4 : Nat,
      [92, 117].foldl nextMode stateQuote = stateUnicode1 ∧
      [92, 117, b1].foldl nextMode stateQuote = stateUnicode2 ∧
      [92, 117, b1, b2].foldl nextMode stateQuote = stateUnicode3 ∧
      [92, 117, b1, b2, b3].foldl nextMode stateQuote = stateUnicode4 ∧
      [92, 117, b1, b2, b3, b4].foldl nextMode stateQuote = stateQuote) := by
  refine ⟨?_, ?_, fun c => ⟨rfl, rfl, rfl, rfl⟩, fun b1 b2 b3 b4 => ⟨rfl, rfl, rfl, rfl, rfl⟩⟩
  · rw [(Write_spec w s).2.1, streamState_mode]
  · intro chunks
    rw [(WriteAll_spec chunks w).2.1, streamState_mode]

/-! ## Pending escapes and runs of plain bytes -/

/-- Two calls of `Write` in a row write what the transducer emits for the two chunks
joined. -/
theorem Write_Write (w : Encoder) (a b : List Nat) :
    written (Write (Write w a).1 b).1 = written w ++ streamOut w.state w.uchar (a ++ b) := by
  obtain ⟨h1, h2, h3, _⟩ := Write_spec w a
  rw [(Write_spec (Write w a).1 b).1, h1, h2, h3, streamOut_append, List.append_assoc]

theorem unicodeOut_cases (u : List Nat) : unicodeOut u ∈ entities ∨ unicodeOut u = u := by
  unfold unicodeOut
  simp only []
  split_ifs <;> simp [entities]

theorem streamOut_pending (u ds : List Nat) (hd : ds.length ≤ 3) :
    streamOut stateQuote u [92] = [] ∧ streamOut stateQuote u (92 :: 117 :: ds) = [] := by
  refine ⟨by simp [streamOut, byteOut], ?_⟩
  match ds, hd with
  | [], _ => simp [streamOut, byteOut, byteNext]
  | [_], _ => simp [streamOut, byteOut, byteNext]
  | [_, _], _ => simp [streamOut, byteOut, byteNext]
  | [_, _, _], _ => simp [streamOut, byteOut, byteNext]

/-- C16: pending escapes are held, not written. When the input of a fresh encoder ends
inside an escape sequence, that is after a text `p` that leaves the encoder inside a
string and then a backslash, or a backslash and `'u'` and 0 to 3 further bytes `ds`, no
byte of the incomplete escape is written: the sink holds what it holds for `p` alone. The
held bytes are written only when a later chunk completes the sequence, as an entity or as
they are. -/
theorem pending_escape_held (p ds : List Nat)
    (hp : (Write (NewEncoder []) p).1.state = stateQuote) (hd : ds.length ≤ 3) :
    written (Write (NewEncoder []) (p ++ [92])).1 = written (Write (NewEncoder []) p).1 ∧
    written (Write (NewEncoder []) (p ++ 92 :: 117 :: ds)).1 =
      written (Write (NewEncoder []) p).1 ∧
    (∀ c : Nat, written (Write (Write (NewEncoder []) (p ++ [92])).1 [c]).1 =
      written (Write (NewEncoder []) p).1 ++
        (if c = 34 then escapedDoubleQuote else if c = 117 then [] else [92, c])) ∧
    (∀ r : List Nat, (ds ++ r).length = 4 →
      ∃ x : List Nat, (x ∈ entities ∨ x = 92 :: 117 :: (ds ++ r)) ∧
        written (Write (Write (NewEncoder []) (p ++ 92 :: 117 :: ds)).1 r).1 =
          written (Write (NewEncoder []) p).1 ++ x) := by
  obtain ⟨h1, h2, h3, _⟩ := Write_spec (NewEncoder []) p
  have hlen : (streamState (NewEncoder []).state (NewEncoder []).uchar p).2.length = 6 := by
    rw [streamState_length]; rfl
  rw [hp] at h2
  have hpend := streamOut_pending (streamState (NewEncoder []).state (NewEncoder []).uchar p).2
    ds hd
  refine ⟨?_, ?_, ?_, ?_⟩
  · rw [(Write_spec _ (p ++ [92])).1, streamOut_append, ← h2, hpend.1, h1]
    simp
  · rw [(Write_spec _ (p ++ 92 :: 117 :: ds)).1, streamOut_append, ← h2, hpend.2, h1]
    simp
  · intro c
    rw [Write_Write, List.append_assoc, streamOut_append, ← h2, h1, List.append_assoc]
    congr 2
    by_cases h34 : c = 34
    · subst h34
      rw [List.singleton_append, streamOut_quote]
      simp [streamOut]
    · by_cases h117 : c = 117
      · subst h117
        simp [streamOut, byteOut, byteNext]
      · rw [List.singleton_append, streamOut_simple _ hlen c h34 h117]
        simp [streamOut, h34, h117]
  · intro r hr
    have hfour : ∃ a b c d, ds ++ r = [a, b, c, d] := by
      match hdr : ds ++ r, hr with
      | [a, b, c, d], _ => exact ⟨a, b, c, d, rfl⟩
    obtain ⟨a, b, c, d, habcd⟩ := hfour
    refine ⟨unicodeOut [92, 117, a, b, c, d], ?_, ?_⟩
    · rw [habcd]
      exact unicodeOut_cases _
    · rw [Write_Write, List.append_assoc, streamOut_append, ← h2, h1, List.append_assoc]
      congr 2
      rw [List.cons_append, List.cons_append, habcd, streamOut_unicode _ hlen]
      simp [streamOut]

/-- C16, at the input `"ab`, backslash, `u00`, completed by the chunk `3c`. -/
theorem pending_escape_held_witness :
    (Write (NewEncoder []) [34, 97, 98]).1.state = stateQuote ∧ [48, 48].length ≤ 3 ∧
    (written (Write (NewEncoder []) ([34, 97, 98] ++ [92])).1 =
      written (Write (NewEncoder []) [34, 97, 98]).1 ∧
    written (Write (NewEncoder []) ([34, 97, 98] ++ 92 :: 117 :: [48, 48])).1 =
      written (Write (NewEncoder []) [34, 97, 98]).1 ∧
    (∀ c : Nat, written (Write (Write (NewEncoder []) ([34, 97, 98] ++ [92])).1 [c]).1 =
      written (Write (NewEncoder []) [34, 97, 98]).1 ++
        (if c = 34 then escapedDoubleQuote else if c = 117 then [] else [92, c])) ∧
    (∀ r : List Nat, ([48, 48] ++ r).length = 4 →
      ∃ x : List Nat, (x ∈ entities ∨ x = 92 :: 117 :: ([48, 48] ++ r)) ∧
        written (Write (Write (NewEncoder [])
            ([34, 97, 98] ++ 92 :: 117 :: [48, 48])).1 r).1 =
          written (Write (NewEncoder []) [34, 97, 98]).1 ++ x)) :=
  ⟨by decide, by decide, pending_escape_held [34, 97, 98] [48, 48] (by decide) (by decide)⟩

/-- Over a run of plain bytes the loop of `Write` makes no sink write and leaves `last`
at 0. -/
theorem loop_plainRun (s rest : List Nat) :
    ∀ (pos : Nat) (w : Encoder), plainRun w.state rest = true →
      (loop s rest pos (w, 0)).1.Writer = w.Writer ∧ (loop s rest pos (w, 0)).2 = 0 ∧
      ((loop s rest pos (w, 0)).1.state = stateTop ∨
        (loop s rest pos (w, 0)).1.state = stateQuote) := by
  induction rest with
  | nil =>
    intro pos w h
    obtain ⟨W, st, u⟩ := w
    cases st <;> simp [plainRun] at h <;> simp [loop]
  | cons c rest ih =>
    intro pos w h
    obtain ⟨W, st, u⟩ := w
    cases st <;> simp only [plainRun, Bool.false_eq_true] at h
    · by_cases h34 : c = 34
      · simp only [h34, if_true] at h
        have := ih (pos + 1) ⟨W, stateQuote, u⟩ h
        simpa [loop, step, h34] using this
      · simp only [h34, if_false] at h
        have := ih (pos + 1) ⟨W, stateTop, u⟩ h
        simpa [loop, step, h34] using this
    · simp only [Bool.and_eq_true, Bool.not_eq_true', Bool.or_eq_false_iff,
        decide_eq_false_iff_not] at h
      obtain ⟨⟨⟨⟨⟨h92, h38⟩, h60⟩, h62⟩, h39⟩, hr⟩ := h
      by_cases h34 : c = 34
      · simp only [h34, if_true] at hr
        have := ih (pos + 1) ⟨W, stateTop, u⟩ hr
        simpa [loop, step, h34] using this
      · simp only [h34, if_false] at hr
        have := ih (pos + 1) ⟨W, stateQuote, u⟩ hr
        simpa [loop, step, h34, h92, h38, h60, h62, h39] using this

/-- C17: runs are flushed as one write. For a chunk that is processed entirely in the
modes `stateTop` and `stateQuote` and holds no flush-triggering byte, `Write` makes
exactly one sink write, whose argument is the whole chunk, when the chunk is not empty,
and no sink write when it is empty. -/
theorem single_flush (w : Encoder) (s : List Nat) (h : plainRun w.state s = true) :
    (Write w s).1.Writer = w.Writer ++ (if s = [] then [] else [s]) := by
  obtain ⟨h1, h2, h3⟩ := loop_plainRun s s 0 w h
  simp only [Write, h2]
  by_cases hs : s = []
  · subst hs
    simp [loop]
  · have hpos : 0 < s.length := List.length_pos.mpr hs
    rw [if_pos ⟨hpos, h3⟩, if_neg hs]
    simp [Encoder.sinkWrite, h1, slice]

/-- C17, at the chunk `{"k":"v/x"}` on a fresh encoder, and at the empty chunk. -/
theorem single_flush_witness :
    plainRun (NewEncoder []).state [123, 34, 107, 34, 58, 34, 118, 47, 120, 34, 125] = true ∧
    (Write (NewEncoder []) [123, 34, 107, 34, 58, 34, 118, 47, 120, 34, 125]).1.Writer =
      (NewEncoder []).Writer ++
        (if [123, 34, 107, 34, 58, 34, 118, 47, 120, 34, 125] = ([] : List Nat) then []
          else [[123, 34, 107, 34, 58, 34, 118, 47, 120, 34, 125]]) :=
  ⟨by decide, single_flush _ _ (by decide)⟩

/-! ## `Write` over a sink that may fail -/

theorem step_last_le (s : List Nat) (pos c : Nat) (w : Encoder) (last : Nat)
    (hl : last ≤ pos) : (step s pos c w last).2 ≤ pos + 1 := by
  obtain ⟨W, st, u⟩ := w
  cases st <;> simp only [step] <;> (try split_ifs) <;> (try simp) <;> omega

theorem step_uchar_length (s : List Nat) (pos c : Nat) (w : Encoder) (last : Nat) :
    (step s pos c w last).1.uchar.length = w.uchar.length := by
  obtain ⟨W, st, u⟩ := w
  cases st <;> simp only [step] <;> (try split_ifs) <;> (try simp [Encoder.sinkWrite])

/-- One turn of the loop: with `last <= pos <= len(s)` and a scratch buffer of length 6
no check fails, and apart from the record of the sink answers the turn is the one of the
first embedding. -/
theorem stepSink_sim {σ : Type} (snk : Sink σ) (s : List Nat) (pos c : Nat)
    (w : SinkEncoder σ) (last : Nat) (hl : last ≤ pos) (hp : pos ≤ s.length)
    (hu : w.uchar.length = 6) :
    (stepSink snk s pos c w last).map (fun r => (r.1.erase, r.2)) =
      some (step s pos c w.erase last) := by
  obtain ⟨W, st, u, calls⟩ := w
  obtain ⟨u0, u1, u2, u3, u4, u5, rfl⟩ := length_six u hu
  have hs : sliceChecked s last pos = some (slice s last pos) := by
    simp [sliceChecked, hl, hp]
  cases st
  · simp only [stepSink, step, SinkEncoder.erase]
    split_ifs <;> rfl
  · simp only [stepSink, step, SinkEncoder.erase, hs, Option.bind_eq_bind, Option.some_bind]
    split_ifs <;>
      simp [SinkEncoder.sinkWrite, Encoder.sinkWrite, SinkEncoder.erase]
  · simp only [stepSink, step, SinkEncoder.erase, Option.bind_eq_bind]
    split_ifs <;>
      simp [SinkEncoder.sinkWrite, Encoder.sinkWrite, SinkEncoder.erase, assignChecked,
        sliceChecked, slice]
  · simp [stepSink, step, SinkEncoder.erase, assignChecked]
  · simp [stepSink, step, SinkEncoder.erase, assignChecked]
  · simp [stepSink, step, SinkEncoder.erase, assignChecked]
  · simp [stepSink, step, SinkEncoder.sinkWrite, SinkEncoder.erase, assignChecked,
      sliceChecked, slice]

/-- The loop of `Write` over a sink that may fail passes every check and is the loop of
the first embedding. -/
theorem loopSink_sim {σ : Type} (snk : Sink σ) (s rest : List Nat) :
    ∀ (pos : Nat) (w : SinkEncoder σ) (last : Nat), last ≤ pos →
      pos + rest.length ≤ s.length → w.uchar.length = 6 →
      (loopSink snk s rest pos (w, last)).map (fun r => (r.1.erase, r.2)) =
        some (loop s rest pos (w.erase, last)) := by
  induction rest with
  | nil => intro pos w last _ _ _; rfl
  | cons c rest ih =>
    intro pos w last hl hp hu
    simp only [List.length_cons] at hp
    have hstep := stepSink_sim snk s pos c w last hl (by omega) hu
    obtain ⟨r, hr, hre⟩ := Option.map_eq_some'.mp hstep
    have h1 : r.1.erase = (step s pos c w.erase last).1 := congrArg Prod.fst hre
    have h2 : r.2 = (step s pos c w.erase last).2 := congrArg Prod.snd hre
    have hl1 : r.2 ≤ pos + 1 := by rw [h2]; exact step_last_le s pos c w.erase last hl
    have hu1 : r.1.uchar.length = 6 := by
      have : r.1.uchar = (step s pos c w.erase last).1.uchar := congrArg Encoder.uchar h1
      rw [this, step_uchar_length]
      exact hu
    have := ih (pos + 1) r.1 r.2 hl1 (by omega) hu1
    simp only [loopSink, loop, hr]
    rw [this, h1, h2]

/-- One call of `Write` over any sink, from a scratch buffer of length 6: no check fails,
the count is the length of the chunk, the error is nil, and mode, scratch buffer and the
slices passed to the sink are those of the first embedding. -/
theorem WriteSink_sim {σ : Type} (snk : Sink σ) (w : SinkEncoder σ) (s : List Nat)
    (hu : w.uchar.length = 6) :
    ∃ w1 : SinkEncoder σ, WriteSink snk w s = some (w1, s.length, none) ∧
      w1.erase = (Write w.erase s).1 := by
  have hloop := loopSink_sim snk s s 0 w 0 (Nat.le_refl _) (by omega) hu
  obtain ⟨r, hr, hre⟩ := Option.map_eq_some'.mp hloop
  have h1 : r.1.erase = (loop s s 0 (w.erase, 0)).1 := congrArg Prod.fst hre
  have h2 : r.2 = (loop s s 0 (w.erase, 0)).2 := congrArg Prod.snd hre
  have hb : r.2 ≤ s.length := by
    rw [h2]
    simpa using (loop_spec s [] w.erase 0 (Nat.le_refl _)).2.2.1
  have hst : r.1.state = (loop s s 0 (w.erase, 0)).1.state := congrArg Encoder.state h1
  simp only [WriteSink, Write, hr, ← h2, ← hst]
  split_ifs with hc
  · have hs : sliceChecked s r.2 s.length = some (slice s r.2 s.length) := by
      simp [sliceChecked, hb]
    refine ⟨r.1.sinkWrite snk (slice s r.2 s.length), by simp [hs], ?_⟩
    rw [← h1]
    simp [SinkEncoder.sinkWrite, SinkEncoder.erase, Encoder.sinkWrite]
  · exact ⟨r.1, rfl, h1⟩

/-- Any number of calls of `Write` over any sink on an encoder made by `NewEncoder`: no
check ever fails, and the scratch buffer has length 6 afterwards. -/
theorem WriteAllSink_sim {σ : Type} (snk : Sink σ) (chunks : List (List Nat)) :
    ∀ w : SinkEncoder σ, w.uchar.length = 6 →
      ∃ w1 : SinkEncoder σ, WriteAllSink snk w chunks = some w1 ∧
        w1.erase = WriteAll w.erase chunks ∧ w1.uchar.length = 6 := by
  induction chunks with
  | nil => intro w hu; exact ⟨w, rfl, rfl, hu⟩
  | cons c chunks ih =>
    intro w hu
    obtain ⟨w1, h1, h2⟩ := WriteSink_sim snk w c hu
    have hu1 : w1.uchar.length = 6 := by
      have : w1.uchar = (Write w.erase c).1.uchar := congrArg Encoder.uchar h2
      rw [this, Write_uchar_length]
      exact hu
    obtain ⟨w2, k1, k2, k3⟩ := ih w1 hu1
    refine ⟨w2, ?_, ?_, k3⟩
    · simp only [WriteAllSink, h1]
      exact k1
    · rw [k2, h2]
      simp [WriteAll]

/-- C11 as stated fails: over a sink whose writes fail, `Write("a")` on a fresh encoder
makes one sink write, which returns the error `"sink failed"`, and `Write` itself returns
a nil error. -/
theorem sink_failure_not_propagated :
    (WriteSink brokenSink (NewSinkEncoder ()) [97]).map
        (fun r => (r.1.calls.map SinkCall.err, r.2.2)) =
      some ([some "sink failed"], none) := by
  decide

/-- C11, amended: `Write` discards the result of every sink write and always returns a
nil error (with the count `len(s)`), whether or not a sink write failed. So a sink
failure is not propagated, and `Write` returns an error only if a sink write failed, for
the reason that it never returns one. -/
theorem write_error_always_nil {σ : Type} (snk : Sink σ) (w : SinkEncoder σ) (s : List Nat)
    (hu : w.uchar.length = 6) :
    (∃ w1 : SinkEncoder σ, WriteSink snk w s = some (w1, s.length, none)) ∧
    (∀ (r : SinkEncoder σ × Nat × Option String) (e : String),
      WriteSink snk w s = some r → r.2.2 = some e →
        ∃ k ∈ r.1.calls, k.err = some e) := by
  obtain ⟨w1, h1, _⟩ := WriteSink_sim snk w s hu
  refine ⟨⟨w1, h1⟩, ?_⟩
  intro r e hr he
  rw [h1] at hr
  cases hr
  cases he

/-- C11 amended, at the chunk `"<"` on a fresh encoder over the sink whose writes fail. -/
theorem write_error_always_nil_witness :
    (NewSinkEncoder ()).uchar.length = 6 ∧
    ((∃ w1 : SinkEncoder Unit,
        WriteSink brokenSink (NewSinkEncoder ()) [34, 60, 34] =
          some (w1, [34, 60, 34].length, none)) ∧
    (∀ (r : SinkEncoder Unit × Nat × Option String) (e : String),
      WriteSink brokenSink (NewSinkEncoder ()) [34, 60, 34] = some r → r.2.2 = some e →
        ∃ k ∈ r.1.calls, k.err = some e)) :=
  ⟨rfl, write_error_always_nil brokenSink (NewSinkEncoder ()) [34, 60, 34] rfl⟩

/-- C12 as stated fails: over a sink whose writes fail, after the chunk `"` the chunk that
is a single backslash makes one sink write, attempted in `stateQuote`, which fails; when
`Write` returns the mode is `stateBackslash`, not the `stateQuote` it was before the
failed write. -/
theorem sink_failure_state_not_restored :
    (WriteAllSink brokenSink (NewSinkEncoder ()) [[34]]).bind
        (fun w1 => (WriteSink brokenSink w1 [92]).map
          (fun r => (r.1.calls.drop w1.calls.length, r.1.state))) =
      some ([{ state := stateQuote, uchar := [0, 0, 0, 0, 0, 0], arg := [],
               err := some "sink failed" }], stateBackslash) := by
  decide

/-- C12, amended: a failing sink write has no effect on the scan. When `Write` returns,
mode and scratch buffer are those that scanning the whole chunk leads to, the same over
a sink that fails as over any other sink (and not the state before a failed write); the
mode is the fold of `nextMode` over the chunk. -/
theorem scan_state_ignores_sink {σ τ : Type} (snk : Sink σ) (snk2 : Sink τ)
    (w : SinkEncoder σ) (v : SinkEncoder τ) (s : List Nat) (hu : w.uchar.length = 6)
    (hs : v.state = w.state) (hv : v.uchar = w.uchar) :
    ∃ (w1 : SinkEncoder σ) (v1 : SinkEncoder τ),
      WriteSink snk w s = some (w1, s.length, none) ∧
      WriteSink snk2 v s = some (v1, s.length, none) ∧
      w1.state = v1.state ∧ w1.uchar = v1.uchar ∧
      w1.state = s.foldl nextMode w.state := by
  obtain ⟨w1, h1, h2⟩ := WriteSink_sim snk w s hu
  obtain ⟨v1, k1, k2⟩ := WriteSink_sim snk2 v s (by rw [hv]; exact hu)
  have a1 : w1.state = (streamState w.state w.uchar s).1 := by
    have : w1.state = (Write w.erase s).1.state := congrArg Encoder.state h2
    rw [this, (Write_spec w.erase s).2.1]; rfl
  have a2 : w1.uchar = (streamState w.state w.uchar s).2 := by
    have : w1.uchar = (Write w.erase s).1.uchar := congrArg Encoder.uchar h2
    rw [this, (Write_spec w.erase s).2.2.1]; rfl
  have b1 : v1.state = (streamState w.state w.uchar s).1 := by
    have : v1.state = (Write v.erase s).1.state := congrArg Encoder.state k2
    rw [this, (Write_spec v.erase s).2.1, ← hs, ← hv]; rfl
  have b2 : v1.uchar = (streamState w.state w.uchar s).2 := by
    have : v1.uchar = (Write v.erase s).1.uchar := congrArg Encoder.uchar k2
    rw [this, (Write_spec v.erase s).2.2.1, ← hs, ← hv]; rfl
  exact ⟨w1, v1, h1, k1, by rw [a1, b1], by rw [a2, b2], by rw [a1, streamState_mode]⟩

/-- C12 amended, at the chunk `"<`, backslash on fresh encoders, one over the sink whose
writes fail and one over a sink that never fails. -/
theorem scan_state_ignores_sink_witness :
    (NewSinkEncoder ()).uchar.length = 6 ∧
    (NewSinkEncoder ([] : List (List Nat))).state = (NewSinkEncoder ()).state ∧
    (NewSinkEncoder ([] : List (List Nat))).uchar = (NewSinkEncoder ()).uchar ∧
    ∃ (w1 : SinkEncoder Unit) (v1 : SinkEncoder (List (List Nat))),
      WriteSink brokenSink (NewSinkEncoder ()) [34, 60, 92] =
        some (w1, [34, 60, 92].length, none) ∧
      WriteSink logSink (NewSinkEncoder []) [34, 60, 92] =
        some (v1, [34, 60, 92].length, none) ∧
      w1.state = v1.state ∧ w1.uchar = v1.uchar ∧
      w1.state = [34, 60, 92].foldl nextMode (NewSinkEncoder ()).state :=
  ⟨rfl, rfl, rfl,
    scan_state_ignores_sink brokenSink logSink (NewSinkEncoder ()) (NewSinkEncoder [])
      [34, 60, 92] rfl rfl rfl⟩

/-- C18: the scan cannot fail. For every sequence of chunks, well-formed JSON or not, fed
to an encoder made by `NewEncoder` over any sink, no index or slice expression of `Write`
is out of range (every assignment `w.uchar[i] = c` finds `i < len(w.uchar)`, every slice
`s[last:pos]`, `s[last:]`, `w.uchar[0:2]`, `w.uchar[2:6]` finds its bounds in order and
within the length), so that `Write` never panics, and the scratch buffer has length 6
afterwards. -/
theorem write_never_panics {σ : Type} (snk : Sink σ) (w0 : σ) (chunks : List (List Nat)) :
    ∃ w1 : SinkEncoder σ, WriteAllSink snk (NewSinkEncoder w0) chunks = some w1 ∧
      w1.uchar.length = 6 := by
  obtain ⟨w1, h1, _, h3⟩ := WriteAllSink_sim snk chunks (NewSinkEncoder w0) rfl
  exact ⟨w1, h1, h3⟩

end XssJSON
